/-
Verification of behavioural claims about the CVAT backend excerpt
(`cvat/apps/engine/serializers.py` and `cvat/apps/events/handlers.py`).

The Python code is shallowly embedded: serializer methods become pure Lean
functions over explicit record states, the ORM database becomes lists of
row records, exceptions become `Except`/`Option` results, and Python
builtin string operations (`str.join`, `str.split`, `str.replace`) are
modelled at the level of their documented semantics.
-/
import Mathlib

namespace CVAT

/-! ## Python string primitives

Python strings are modelled as `List Char`.  `pySplit sep s` is Python's
`s.split(sep)` for a one-character separator: it cuts `s` at every
occurrence of `sep`, keeping empty fragments, and on the empty string
returns `[[]]` (Python: `''.split(x) == ['']`).  `pyJoin sep xs` is
Python's `sep.join(xs)`. -/

def pySplit (sep : Char) : List Char → List (List Char)
  | [] => [[]]
  | c :: rest =>
    if c = sep then
      [] :: pySplit sep rest
    else
      match pySplit sep rest with
      | [] => [[c]]
      | g :: gs => (c :: g) :: gs

def pyJoin (sep : Char) (xs : List (List Char)) : List Char :=
  List.intercalate [sep] xs

theorem pySplit_ne_nil (sep : Char) (s : List Char) : pySplit sep s ≠ [] := by
  induction s with
  | nil => simp [pySplit]
  | cons c rest ih =>
    simp only [pySplit]
    split
    · simp
    · cases h : pySplit sep rest with
      | nil => simp
      | cons g gs => simp

/-! ## `AttributeSerializer` (serializers.py lines 147–169)

`to_internal_value` replaces the `values` list by `'\n'.join(values)`;
`to_representation` replaces the stored string by
`instance.values.split('\n')`.  Only the treatment of the `values` field
is modelled; the remaining fields are copied verbatim by the serializer. -/

def attributeValuesToInternal (values : List (List Char)) : List Char :=
  pyJoin '\n' values

def attributeValuesToRepresentation (stored : List Char) : List (List Char) :=
  pySplit '\n' stored

/-- The round trip performed by storing and re-rendering the `values` field. -/
def attributeValuesRoundtrip (values : List (List Char)) : List (List Char) :=
  attributeValuesToRepresentation (attributeValuesToInternal values)

theorem pySplit_append_sep (sep : Char) (a b : List Char) (ha : sep ∉ a) :
    pySplit sep (a ++ sep :: b) = a :: pySplit sep b := by
  induction a with
  | nil => simp [pySplit]
  | cons c rest ih =>
    simp only [List.mem_cons, not_or] at ha
    have hstep : pySplit sep (c :: (rest ++ sep :: b)) =
        match pySplit sep (rest ++ sep :: b) with
        | [] => [[c]]
        | g :: gs => (c :: g) :: gs := by
      simp [pySplit, Ne.symm ha.1]
    rw [List.cons_append, hstep, ih ha.2]

theorem pySplit_no_sep (sep : Char) (a : List Char) (ha : sep ∉ a) :
    pySplit sep a = [a] := by
  induction a with
  | nil => simp [pySplit]
  | cons c rest ih =>
    simp only [List.mem_cons, not_or] at ha
    simp only [pySplit, if_neg (Ne.symm ha.1), ih ha.2]

theorem pySplit_pyJoin (sep : Char) (xs : List (List Char)) (hne : xs ≠ [])
    (hsep : ∀ x ∈ xs, sep ∉ x) :
    pySplit sep (pyJoin sep xs) = xs := by
  induction xs with
  | nil => exact absurd rfl hne
  | cons a rest ih =>
    cases rest with
    | nil =>
      have : pyJoin sep [a] = a := by simp [pyJoin, List.intercalate]
      rw [this]
      exact pySplit_no_sep sep a (hsep a (by simp))
    | cons b rest' =>
      have hj : pyJoin sep (a :: b :: rest') = a ++ sep :: pyJoin sep (b :: rest') := by
        simp [pyJoin, List.intercalate, List.intersperse]
      rw [hj, pySplit_append_sep sep a _ (hsep a (by simp))]
      rw [ih (by simp) (fun x hx => hsep x (List.mem_cons_of_mem a hx))]

/-- C6 (corrected): for every nonempty `values` list whose entries contain no
newline character, storing via `to_internal_value` (join on `'\n'`) and then
rendering via `to_representation` (split on `'\n'`) yields the original list. -/
theorem attribute_values_roundtrip (values : List (List Char))
    (hne : values ≠ []) (hnl : ∀ v ∈ values, '\n' ∉ v) :
    attributeValuesRoundtrip values = values :=
  pySplit_pyJoin '\n' values hne hnl

theorem attribute_values_roundtrip_witness :
    attributeValuesRoundtrip [['a', 'b'], ['c']] = [['a', 'b'], ['c']] :=
  attribute_values_roundtrip [['a', 'b'], ['c']] (by decide) (by decide)

/-- C6 counterexample: the empty `values` list (allowed: `allow_empty=True`)
does not round trip: `'\n'.join([]) == ''` and `''.split('\n') == ['']`, so
the rendered list is `['']`, not `[]`. -/
theorem attribute_values_roundtrip_empty_cex :
    attributeValuesRoundtrip [] = [[]] ∧ ([[]] : List (List Char)) ≠ [] := by
  constructor
  · rfl
  · decide

/-! ## Audit events (`cvat/apps/events/handlers.py`)

Serialized model data (`serializer.data`) is a JSON dictionary; it is
modelled as an association list from field names to `JVal`.  Nested
dictionary values are flattened to string association lists, which is all
the cleanup code distinguishes (`isinstance(v, dict)`). -/

namespace Events

inductive JVal where
  | null
  | prim (s : String)
  | dict (entries : List (String × String))
deriving DecidableEq, Repr

/-- The `fields` tuple of `_cleanup_fields` (handlers.py lines 118–136). -/
def cleanupTopFields : List String :=
  ["slug", "id", "name", "username", "display_name", "message", "organization",
   "project", "size", "task", "tasks", "job", "jobs", "comments", "url",
   "issues", "attributes"]

/-- The `subfields` tuple of `_cleanup_fields` (handlers.py lines 137–139). -/
def cleanupSubfields : List String := ["url"]

/-- The per-value part of `_cleanup_fields`: a dictionary value loses the keys
in `subfields`, any other value is kept as is. -/
def stripSubfields : JVal → JVal
  | .dict entries => .dict (entries.filter (fun kv => !cleanupSubfields.contains kv.1))
  | v => v

/-- `_cleanup_fields` (handlers.py lines 117–149). -/
def cleanup_fields : List (String × JVal) → List (String × JVal)
  | [] => []
  | (k, v) :: rest =>
    if k ∈ cleanupTopFields then cleanup_fields rest
    else (k, stripSubfields v) :: cleanup_fields rest

/-- The `ingone_related_fields` tuple of `_get_instance_diff`. -/
def ignoredRelatedFields : List String := ["labels"]

/-- Python `dict.get(k)`: `None` when the key is missing.  A missing key and
an explicit `null` value compare the same way they do in the Python code. -/
def dictGet (d : List (String × JVal)) (k : String) : JVal :=
  match d.lookup k with
  | some v => v
  | none => .null

/-- `_get_instance_diff` (handlers.py lines 100–115): one diff entry
`(prop, (old_value, new_value))` per property of `data` (in order) that is
not in `ingone_related_fields` and whose value differs from
`old_data.get(prop)`. -/
def get_instance_diff (old_data : List (String × JVal)) :
    List (String × JVal) → List (String × (JVal × JVal))
  | [] => []
  | (prop, value) :: rest =>
    if prop ∈ ignoredRelatedFields then get_instance_diff old_data rest
    else if dictGet old_data prop ≠ value then
      (prop, (dictGet old_data prop, value)) :: get_instance_diff old_data rest
    else get_instance_diff old_data rest

/-- Stand-in for Python `str()` applied to a serialized JSON value, as used
for `obj_val`.  The exact dictionary rendering is irrelevant to the claims;
only that the same deterministic function is applied. -/
def pyStr : JVal → String
  | .null => "None"
  | .prim s => s
  | .dict entries =>
    "\x7b" ++ String.intercalate ", " (entries.map (fun kv => kv.1 ++ ": " ++ kv.2)) ++ "\x7d"

/-- Modelled from the spec: `create_event` (cvat/apps/events/event.py, not in
the excerpt) packs its keyword arguments into a JSON audit event record; the
event-emission hook layer then renders it to JSON and logs it.  An `Event`
holds exactly the arguments the handlers pass. -/
structure Event where
  scope : String
  timestamp : String
  obj_name : Option String
  obj_id : Option Nat
  obj_val : Option String
  source : String
  org_id : Option Nat
  org_slug : Option String
  project_id : Option Nat
  task_id : Option Nat
  job_id : Option Nat
  user_id : Option Nat
  user_name : Option String
  user_email : Option String
  payload : List (String × JVal)
deriving DecidableEq, Repr

/-- The per-call context of a handler: the ids computed once at the top of
`handle_update`/`handle_create` (`organization_id(instance)` …), plus the
`getattr(instance, f'{prop}_id', None)` lookup used for `obj_id`. -/
structure HandlerContext where
  org_id : Option Nat := none
  org_slug : Option String := none
  project_id : Option Nat := none
  task_id : Option Nat := none
  job_id : Option Nat := none
  user_id : Option Nat := none
  user_name : Option String := none
  user_email : Option String := none
  obj_ids : String → Option Nat := fun _ => none

/-- The body of the `for prop, change in diff.items()` loop of
`handle_update` (handlers.py lines 250–273): `change` is cleaned with
`_cleanup_fields` and one event is created from it. -/
def mkUpdateEvent (scope : String) (ctx : HandlerContext) (timestamp : String)
    (pc : String × (JVal × JVal)) : Event :=
  let change := cleanup_fields [("old_value", pc.2.1), ("new_value", pc.2.2)]
  { scope := scope
    timestamp := timestamp
    obj_name := some pc.1
    obj_id := ctx.obj_ids pc.1
    obj_val := some (pyStr (dictGet change "new_value"))
    source := "server"
    org_id := ctx.org_id
    org_slug := ctx.org_slug
    project_id := ctx.project_id
    task_id := ctx.task_id
    job_id := ctx.job_id
    user_id := ctx.user_id
    user_name := ctx.user_name
    user_email := ctx.user_email
    payload := [("old_value", dictGet change "old_value")] }

/-- `handle_update` (handlers.py lines 235–273): one event per entry of the
instance diff, all sharing the timestamp computed once before the loop. -/
def handle_update (scope : String) (ctx : HandlerContext) (timestamp : String)
    (old_data data : List (String × JVal)) : List Event :=
  (get_instance_diff old_data data).map (mkUpdateEvent scope ctx timestamp)

/-- `handle_create` (handlers.py lines 199–233): `renderedData` is the
outcome of evaluating `serializer.data`, which the `try`/`except` replaces
by `{}` when it raises; exactly one event is then created and logged.
`now` stands for the default timestamp `create_event` fills in. -/
def handle_create (scope : String) (ctx : HandlerContext) (now : String)
    (objId : Option Nat) (objName : Option String)
    (renderedData : Except Unit (List (String × JVal))) : List Event :=
  let payload :=
    match renderedData with
    | .ok d => d
    | .error _ => []
  let payload := cleanup_fields payload
  [{ scope := scope
     timestamp := now
     obj_name := objName
     obj_id := objId
     obj_val := none
     source := "server"
     org_id := ctx.org_id
     org_slug := ctx.org_slug
     project_id := ctx.project_id
     task_id := ctx.task_id
     job_id := ctx.job_id
     user_id := ctx.user_id
     user_name := ctx.user_name
     user_email := ctx.user_email
     payload := payload }]

theorem cleanup_fields_change (a b : JVal) :
    cleanup_fields [("old_value", a), ("new_value", b)]
      = [("old_value", stripSubfields a), ("new_value", stripSubfields b)] := by
  have h1 : ¬("old_value" ∈ cleanupTopFields) := by decide
  have h2 : ¬("new_value" ∈ cleanupTopFields) := by decide
  simp [cleanup_fields, h1, h2]

end Events

end CVAT

namespace CVAT
namespace Events

theorem dictGet_change_old (x y : JVal) :
    dictGet [("old_value", x), ("new_value", y)] "old_value" = x := by
  simp [dictGet, List.lookup]

theorem dictGet_change_new (x y : JVal) :
    dictGet [("old_value", x), ("new_value", y)] "new_value" = y := by
  simp [dictGet, List.lookup]

theorem get_instance_diff_length (old_data data : List (String × JVal)) :
    (get_instance_diff old_data data).length
      = data.countP (fun pv =>
          decide (pv.1 ∉ ignoredRelatedFields ∧ dictGet old_data pv.1 ≠ pv.2)) := by
  induction data with
  | nil => rfl
  | cons pv rest ih =>
    obtain ⟨prop, value⟩ := pv
    simp only [get_instance_diff, List.countP_cons]
    by_cases h1 : prop ∈ ignoredRelatedFields
    · rw [if_pos h1]
      simp [ih, h1]
    · rw [if_neg h1]
      by_cases h2 : dictGet old_data prop ≠ value
      · rw [if_pos h2]
        simp [ih, h1, h2]
      · rw [if_neg h2]
        simp only [not_not] at h2
        simp [ih, h1, h2]

theorem get_instance_diff_countP_key (old_data data : List (String × JVal))
    (prop : String) :
    (get_instance_diff old_data data).countP (fun pc => decide (pc.1 = prop))
      = data.countP (fun pv =>
          decide (pv.1 = prop ∧ pv.1 ∉ ignoredRelatedFields ∧ dictGet old_data pv.1 ≠ pv.2)) := by
  induction data with
  | nil => rfl
  | cons pv rest ih =>
    obtain ⟨key, value⟩ := pv
    simp only [get_instance_diff, List.countP_cons]
    by_cases h1 : key ∈ ignoredRelatedFields
    · rw [if_pos h1]
      simp [ih, h1]
    · rw [if_neg h1]
      by_cases h2 : dictGet old_data key ≠ value
      · rw [if_pos h2]
        rw [List.countP_cons]
        simp [ih, h1, h2]
      · rw [if_neg h2]
        simp only [not_not] at h2
        simp [ih, h1, h2]

theorem mem_get_instance_diff (old_data data : List (String × JVal))
    (pc : String × (JVal × JVal)) (hmem : pc ∈ get_instance_diff old_data data) :
    pc.1 ∉ ignoredRelatedFields ∧ (pc.1, pc.2.2) ∈ data ∧
      pc.2.1 = dictGet old_data pc.1 ∧ dictGet old_data pc.1 ≠ pc.2.2 := by
  induction data with
  | nil => simp [get_instance_diff] at hmem
  | cons pv rest ih =>
    obtain ⟨key, value⟩ := pv
    simp only [get_instance_diff] at hmem
    by_cases h1 : key ∈ ignoredRelatedFields
    · rw [if_pos h1] at hmem
      have h := ih hmem
      exact ⟨h.1, List.mem_cons_of_mem _ h.2.1, h.2.2⟩
    · rw [if_neg h1] at hmem
      by_cases h2 : dictGet old_data key ≠ value
      · rw [if_pos h2] at hmem
        rcases List.mem_cons.mp hmem with heq | htail
        · subst heq
          exact ⟨h1, List.mem_cons_self _ _, rfl, h2⟩
        · have h := ih htail
          exact ⟨h.1, List.mem_cons_of_mem _ h.2.1, h.2.2⟩
      · rw [if_neg h2] at hmem
        have h := ih hmem
        exact ⟨h.1, List.mem_cons_of_mem _ h.2.1, h.2.2⟩

theorem countP_key_nodup (data : List (String × JVal)) (prop : String)
    (P : String × JVal → Prop) [DecidablePred P]
    (hnd : (data.map Prod.fst).Nodup) :
    data.countP (fun pv => decide (pv.1 = prop ∧ P pv))
      = if ∃ pv ∈ data, pv.1 = prop ∧ P pv then 1 else 0 := by
  induction data with
  | nil => simp
  | cons pv rest ih =>
    simp only [List.map_cons, List.nodup_cons] at hnd
    obtain ⟨hp, hnd'⟩ := hnd
    rw [List.countP_cons]
    by_cases hk : pv.1 = prop
    · have hrest : rest.countP (fun qv => decide (qv.1 = prop ∧ P qv)) = 0 := by
        apply List.countP_eq_zero.mpr
        intro qv hqv
        simp only [decide_eq_true_eq, not_and]
        intro hq _
        apply hp
        have hmem : qv.1 ∈ List.map Prod.fst rest := List.mem_map_of_mem Prod.fst hqv
        rwa [hq, ← hk] at hmem
      by_cases hP : P pv
      · have hex : ∃ qv ∈ pv :: rest, qv.1 = prop ∧ P qv :=
          ⟨pv, List.mem_cons_self _ _, hk, hP⟩
        rw [hrest, if_pos hex]
        simp [hk, hP]
      · have hnone : ¬ ∃ qv ∈ pv :: rest, qv.1 = prop ∧ P qv := by
          rintro ⟨qv, hqmem, hqk, hqP⟩
          rcases List.mem_cons.mp hqmem with heq | htail
          · exact hP (heq ▸ hqP)
          · apply hp
            have hmem : qv.1 ∈ List.map Prod.fst rest := List.mem_map_of_mem Prod.fst htail
            rwa [hqk, ← hk] at hmem
        rw [hrest, if_neg hnone]
        simp [hP]
    · rw [ih hnd']
      have hhead : ¬(pv.1 = prop ∧ P pv) := fun h => hk h.1
      have hiff : (∃ qv ∈ pv :: rest, qv.1 = prop ∧ P qv)
          ↔ (∃ qv ∈ rest, qv.1 = prop ∧ P qv) := by
        constructor
        · rintro ⟨qv, hqmem, hq⟩
          rcases List.mem_cons.mp hqmem with heq | htail
          · exact absurd (heq ▸ hq.1) hk
          · exact ⟨qv, htail, hq⟩
        · rintro ⟨qv, hqmem, hq⟩
          exact ⟨qv, List.mem_cons_of_mem _ hqmem, hq⟩
      simp only [decide_eq_true_eq, if_neg hhead, add_zero, hiff]

end Events
end CVAT

namespace CVAT
namespace Events

theorem mkUpdateEvent_fields (scope : String) (ctx : HandlerContext) (ts : String)
    (pc : String × (JVal × JVal)) :
    (mkUpdateEvent scope ctx ts pc).timestamp = ts ∧
    (mkUpdateEvent scope ctx ts pc).obj_name = some pc.1 ∧
    (mkUpdateEvent scope ctx ts pc).obj_val = some (pyStr (stripSubfields pc.2.2)) ∧
    (mkUpdateEvent scope ctx ts pc).payload = [("old_value", stripSubfields pc.2.1)] := by
  refine ⟨rfl, rfl, ?_, ?_⟩
  · show some (pyStr (dictGet (cleanup_fields
      [("old_value", pc.2.1), ("new_value", pc.2.2)]) "new_value")) = _
    rw [cleanup_fields_change, dictGet_change_new]
  · show [("old_value", dictGet (cleanup_fields
      [("old_value", pc.2.1), ("new_value", pc.2.2)]) "old_value")] = _
    rw [cleanup_fields_change, dictGet_change_old]

/-- C4 (confirmed): for every pair of serialized instances, `handle_update`
emits exactly one audit event per property of the new serialized data, the
`labels` property excluded, whose value differs from the old serialized
value; each event's `obj_name` is the property name, its `obj_val` is the
string form of the (subfield-cleaned) new value, its payload carries the
(subfield-cleaned) old value, and all events of one call share the single
timestamp taken before the loop. -/
theorem handle_update_events (scope : String) (ctx : HandlerContext) (ts : String)
    (old_data data : List (String × JVal))
    (hnd : (data.map Prod.fst).Nodup) :
    ((handle_update scope ctx ts old_data data).length
        = data.countP (fun pv =>
            decide (pv.1 ∉ ignoredRelatedFields ∧ dictGet old_data pv.1 ≠ pv.2)))
    ∧ (∀ prop : String,
        (handle_update scope ctx ts old_data data).countP
            (fun e => decide (e.obj_name = some prop))
          = if ∃ pv ∈ data, pv.1 = prop ∧ pv.1 ∉ ignoredRelatedFields ∧
                dictGet old_data pv.1 ≠ pv.2 then 1 else 0)
    ∧ (∀ e ∈ handle_update scope ctx ts old_data data,
        e.timestamp = ts ∧
        ∃ prop v, (prop, v) ∈ data ∧ prop ∉ ignoredRelatedFields ∧
          dictGet old_data prop ≠ v ∧
          e.obj_name = some prop ∧
          e.obj_val = some (pyStr (stripSubfields v)) ∧
          e.payload = [("old_value", stripSubfields (dictGet old_data prop))]) := by
  refine ⟨?_, ?_, ?_⟩
  · rw [handle_update, List.length_map, get_instance_diff_length]
  · intro prop
    rw [handle_update, List.countP_map]
    have hcong : (get_instance_diff old_data data).countP
        ((fun e => decide (e.obj_name = some prop)) ∘ mkUpdateEvent scope ctx ts)
        = (get_instance_diff old_data data).countP (fun pc => decide (pc.1 = prop)) := by
      apply List.countP_congr
      intro pc _
      have h := (mkUpdateEvent_fields scope ctx ts pc).2.1
      simp [Function.comp, h]
    rw [hcong, get_instance_diff_countP_key]
    exact countP_key_nodup data prop
      (fun pv => pv.1 ∉ ignoredRelatedFields ∧ dictGet old_data pv.1 ≠ pv.2) hnd
  · intro e he
    rw [handle_update] at he
    obtain ⟨pc, hpc, rfl⟩ := List.mem_map.mp he
    obtain ⟨hig, hmem, hold, hne⟩ := mem_get_instance_diff old_data data pc hpc
    obtain ⟨hts, hname, hval, hpay⟩ := mkUpdateEvent_fields scope ctx ts pc
    exact ⟨hts, pc.1, pc.2.2, hmem, hig, hne, hname, hval, by rw [hpay, hold]⟩

theorem handle_update_events_witness :
    (handle_update "update:task" {} "1700000000"
        [("name", JVal.prim "a")] [("name", JVal.prim "b")]).length
      = ([("name", JVal.prim "b")] : List (String × JVal)).countP (fun pv =>
          decide (pv.1 ∉ ignoredRelatedFields ∧
            dictGet [("name", JVal.prim "a")] pv.1 ≠ pv.2)) :=
  (handle_update_events "update:task" {} "1700000000"
    [("name", JVal.prim "a")] [("name", JVal.prim "b")] (by decide)).1

/-- C10 (confirmed): `handle_create` creates and logs exactly one audit event
for every instance, whatever the outcome of evaluating `serializer.data` is;
when that evaluation raises, the event is still produced, with an empty
payload, instead of the exception propagating to the caller. -/
theorem handle_create_events (scope : String) (ctx : HandlerContext) (now : String)
    (objId : Option Nat) (objName : Option String) :
    (∀ renderedData, (handle_create scope ctx now objId objName renderedData).length = 1)
    ∧ (handle_create scope ctx now objId objName (Except.error ())).map Event.payload
        = [[]] :=
  ⟨fun _ => rfl, rfl⟩

end Events
end CVAT

namespace CVAT

/-! ## `CloudStorageWriteSerializer.create` (serializers.py lines 1439–1527)

The cloud provider is abstracted by the observable answers the code asks
it for: the storage status (`storage.get_status()`), the per-file status
(`storage.get_file_status(manifest)`), and whether `storage.create()`
raises.  The filesystem effects tracked are the temporary key file written
by the `NamedTemporaryFile` block and whether a `CloudStorage` row was
created. -/

namespace CloudStorage

/-- `cvat.apps.engine.cloud_provider.Status` values the code compares with. -/
inductive SStatus where
  | available
  | forbidden
  | notFound
deriving DecidableEq, Repr

structure CSInput where
  /-- a `key_file` upload is present, so a temporary key file gets written -/
  keyFile : Bool
  /-- the `should_be_created` flag popped from the validated data -/
  shouldBeCreated : Bool
  /-- whether `storage.create()` raises when invoked -/
  createRaises : Bool
  /-- `storage.get_status()` -/
  status : SStatus
  /-- the manifest file names listed in the validated data -/
  manifests : List String
  /-- `storage.get_file_status(manifest)` -/
  fileStatus : String → SStatus

/-- Observable outcome: whether a `CloudStorage` row exists afterwards and
whether the temporary key file is still on disk. -/
structure CSOutcome where
  recordCreated : Bool
  tempFileExists : Bool
deriving DecidableEq, Repr

inductive CSErr where
  /-- the exception re-raised after `storage.create()` fails -/
  | createException
  /-- `serializers.ValidationError({field: message})` -/
  | validationErr (field : String)
deriving DecidableEq, Repr

/-- `CloudStorageWriteSerializer._manifests_validation` (lines 1439–1453):
first manifest whose file status is not available determines the error. -/
def manifests_validation (fileStatus : String → SStatus) :
    List String → Option CSErr
  | [] => none
  | m :: rest =>
    match fileStatus m with
    | .notFound => some (.validationErr "manifests")
    | .forbidden => some (.validationErr "manifests")
    | .available => manifests_validation fileStatus rest

/-- `CloudStorageWriteSerializer.create` (lines 1455–1527).  Returns the
error raised (`none` on success) together with the final filesystem/DB
outcome. -/
def cloudStorageCreate (inp : CSInput) : Option CSErr × CSOutcome :=
  let temp := inp.keyFile
  if inp.shouldBeCreated && inp.createRaises then
    -- `storage.create()` raised: the exception is logged and re-raised
    -- before the status checks; the temporary file is not touched.
    (some .createException, ⟨false, temp⟩)
  else
    match inp.status with
    | .available =>
      match manifests_validation inp.fileStatus inp.manifests with
      | some e =>
        -- the ValidationError from `_manifests_validation` propagates out of
        -- the AVAILABLE branch; the `os.remove(temporary_file)` at line 1525
        -- is never reached.
        (some e, ⟨false, temp⟩)
      | none =>
        -- the record is created; when a temporary key file exists it is
        -- copied to its permanent location and removed.
        (none, ⟨true, false⟩)
    | .forbidden =>
      (some (.validationErr "credentials"), ⟨false, false⟩)
    | .notFound =>
      (some (.validationErr "resource"), ⟨false, false⟩)

/-- C5 counterexample: with a key file, an AVAILABLE storage and one listed
manifest whose file is missing, `create` raises a ValidationError (on the
`manifests` field), no `CloudStorage` record is created, but the temporary
key file written during validation is NOT removed — contradicting the
claim that in every error case the temporary file is removed. -/
theorem cloudStorageCreate_temp_leak_cex :
    cloudStorageCreate
      { keyFile := true, shouldBeCreated := false, createRaises := false,
        status := .available, manifests := ["manifest.jsonl"],
        fileStatus := fun _ => .notFound }
      = (some (.validationErr "manifests"),
         { recordCreated := false, tempFileExists := true }) := rfl

/-- C5 (corrected): a `CloudStorage` record is created exactly when
`storage.create()` does not raise, the storage status is AVAILABLE and
every listed manifest file is accessible; a FORBIDDEN status raises a
ValidationError on the `credentials` field and a not-found resource one on
the `resource` field, both with the temporary key file removed; no error
case creates a record, but when manifest validation fails (or
`storage.create()` raises) the temporary key file is left behind. -/
theorem cloudStorageCreate_cases (inp : CSInput) :
    ((cloudStorageCreate inp).2.recordCreated = true ↔
      (cloudStorageCreate inp).1 = none)
    ∧ ((cloudStorageCreate inp).1 = none ↔
        ¬(inp.shouldBeCreated = true ∧ inp.createRaises = true) ∧
        inp.status = .available ∧
        ∀ m ∈ inp.manifests, inp.fileStatus m = .available)
    ∧ (¬(inp.shouldBeCreated = true ∧ inp.createRaises = true) →
        inp.status = .forbidden →
        cloudStorageCreate inp
          = (some (.validationErr "credentials"), ⟨false, false⟩))
    ∧ (¬(inp.shouldBeCreated = true ∧ inp.createRaises = true) →
        inp.status = .notFound →
        cloudStorageCreate inp
          = (some (.validationErr "resource"), ⟨false, false⟩))
    ∧ (¬(inp.shouldBeCreated = true ∧ inp.createRaises = true) →
        inp.status = .available →
        ∀ e, manifests_validation inp.fileStatus inp.manifests = some e →
          cloudStorageCreate inp = (some e, ⟨false, inp.keyFile⟩)) := by
  have hmv : ∀ ms, manifests_validation inp.fileStatus ms = none ↔
      ∀ m ∈ ms, inp.fileStatus m = .available := by
    intro ms
    induction ms with
    | nil => simp [manifests_validation]
    | cons m rest ih =>
      cases hf : inp.fileStatus m <;>
        simp [manifests_validation, hf, ih]
  by_cases hc : inp.shouldBeCreated = true ∧ inp.createRaises = true
  · obtain ⟨h1, h2⟩ := hc
    refine ⟨?_, ?_, ?_, ?_, ?_⟩ <;>
      simp [cloudStorageCreate, h1, h2]
  · have hcb : (inp.shouldBeCreated && inp.createRaises) = false := by
      cases h1 : inp.shouldBeCreated <;> cases h2 : inp.createRaises <;> simp_all
    cases hs : inp.status
    · cases hm : manifests_validation inp.fileStatus inp.manifests with
      | none =>
        have hall := (hmv inp.manifests).mp hm
        have hres : cloudStorageCreate inp = (none, ⟨true, false⟩) := by
          simp [cloudStorageCreate, hcb, hs, hm]
        refine ⟨?_, ?_, ?_, ?_, ?_⟩
        · rw [hres]
          simp
        · rw [hres]
          exact iff_of_true rfl ⟨hc, rfl, hall⟩
        · intro _ hf
          exact SStatus.noConfusion hf
        · intro _ hf
          exact SStatus.noConfusion hf
        · intro _ _ e he
          exact Option.noConfusion he
      | some e0 =>
        have hnall : ¬ ∀ m ∈ inp.manifests, inp.fileStatus m = .available := by
          intro hall
          rw [(hmv inp.manifests).mpr hall] at hm
          exact Option.noConfusion hm
        have hres : cloudStorageCreate inp = (some e0, ⟨false, inp.keyFile⟩) := by
          simp [cloudStorageCreate, hcb, hs, hm]
        refine ⟨?_, ?_, ?_, ?_, ?_⟩
        · rw [hres]
          simp
        · rw [hres]
          exact iff_of_false (by simp) (fun h => hnall h.2.2)
        · intro _ hf
          exact SStatus.noConfusion hf
        · intro _ hf
          exact SStatus.noConfusion hf
        · intro _ _ e he
          rw [hres, Option.some.inj he]
    · have hres : cloudStorageCreate inp
          = (some (.validationErr "credentials"), ⟨false, false⟩) := by
        simp [cloudStorageCreate, hcb, hs]
      refine ⟨?_, ?_, ?_, ?_, ?_⟩
      · rw [hres]
        simp
      · rw [hres]
        exact iff_of_false (by simp) (fun h => SStatus.noConfusion h.2.1)
      · intro _ _
        exact hres
      · intro _ hf
        exact SStatus.noConfusion hf
      · intro _ hf
        exact SStatus.noConfusion hf
    · have hres : cloudStorageCreate inp
          = (some (.validationErr "resource"), ⟨false, false⟩) := by
        simp [cloudStorageCreate, hcb, hs]
      refine ⟨?_, ?_, ?_, ?_, ?_⟩
      · rw [hres]
        simp
      · rw [hres]
        exact iff_of_false (by simp) (fun h => SStatus.noConfusion h.2.1)
      · intro _ hf
        exact SStatus.noConfusion hf
      · intro _ _
        exact hres
      · intro _ hf
        exact SStatus.noConfusion hf

theorem cloudStorageCreate_cases_witness :
    cloudStorageCreate
        { keyFile := true, shouldBeCreated := false, createRaises := false,
          status := .forbidden, manifests := [],
          fileStatus := fun _ => .available }
      = (some (.validationErr "credentials"), ⟨false, false⟩) :=
  (cloudStorageCreate_cases
    { keyFile := true, shouldBeCreated := false, createRaises := false,
      status := .forbidden, manifests := [],
      fileStatus := fun _ => .available }).2.2.1
    (by simp) rfl

end CloudStorage

end CVAT

namespace CVAT

/-! ## `LabelSerializer` (serializers.py lines 197–443)

The label table is a list of `LabelRow` records; `owner` stands for the
parent entity of `parent_info` (the project or task id the label belongs
to), `parentId` for the `parent` foreign key to another label.  A
validated label dictionary together with its nested `sublabels` is a
`LabelSpec` tree.  `get_label_color` and `models.Label.create` live
outside the excerpt: the colour picker is threaded through as an explicit
function argument, and `Label.create` inserts a row under a fresh id.
Both `update_label`, `create_labels` and `update_labels` run under
`transaction.atomic`, so an exception rolls every change back: the
embeddings return `Except` and an error carries no state.  Attribute
specs are tracked by their key `(label id, name)` only; their value
columns play no part in the claims settled here.  The `updCalls` field of
the state is ghost instrumentation counting the `update_label` invocations
performed by `update_labels`. -/

namespace Labels

structure LabelRow where
  id : Nat
  owner : Nat
  name : String
  ltype : Option String
  color : String
  parentId : Option Nat
deriving DecidableEq, Repr

/-- A validated label dictionary (`LabelSerializer` fields) with its nested
`sublabels`.  `name` is required by the serializer on creation but may be
absent in a partial update. -/
inductive LabelSpec where
  | mk (id : Option Nat) (name : Option String) (ltype : Option String)
      (color : Option String) (deleted : Bool) (svg : String)
      (attributes : List String) (sublabels : List LabelSpec)

def LabelSpec.id : LabelSpec → Option Nat
  | .mk i _ _ _ _ _ _ _ => i

def LabelSpec.name : LabelSpec → Option String
  | .mk _ n _ _ _ _ _ _ => n

def LabelSpec.ltype : LabelSpec → Option String
  | .mk _ _ t _ _ _ _ _ => t

def LabelSpec.color : LabelSpec → Option String
  | .mk _ _ _ c _ _ _ _ => c

def LabelSpec.deleted : LabelSpec → Bool
  | .mk _ _ _ _ d _ _ _ => d

def LabelSpec.svg : LabelSpec → String
  | .mk _ _ _ _ _ s _ _ => s

def LabelSpec.attributes : LabelSpec → List String
  | .mk _ _ _ _ _ _ a _ => a

def LabelSpec.sublabels : LabelSpec → List LabelSpec
  | .mk _ _ _ _ _ _ _ subs => subs

structure DbState where
  nextId : Nat
  labels : List LabelRow
  skeletons : List (Nat × String)
  attrSpecs : List (Nat × String)
  updCalls : Nat
deriving DecidableEq, Repr

/-- Python `a or b` for an optional/blank string `a`: `None` and `''` are
falsy. -/
def pyOr (a : Option String) (b : String) : String :=
  match a with
  | none => b
  | some s => if s = "" then b else s

/-- Python `a or b` where both sides are optional strings (an unset type
column is `None`). -/
def pyOrOpt (a b : Option String) : Option String :=
  match a with
  | none => b
  | some s => if s = "" then b else some s

/-- `str(models.LabelType.SKELETON)`. -/
def skeletonType : String := "skeleton"

/-- The query `db_label.sublabels.all()`: the rows whose `parent` FK is the
given label, in creation (id) order. -/
def childrenOf (labels : List LabelRow) (pid : Nat) : List LabelRow :=
  labels.filter (fun r => r.parentId == some pid)

/-- `order_by('id')`: insertion sort of label rows by id. -/
def insertById (r : LabelRow) : List LabelRow → List LabelRow
  | [] => [r]
  | x :: xs => if r.id ≤ x.id then r :: x :: xs else x :: insertById r xs

def sortById : List LabelRow → List LabelRow
  | [] => []
  | x :: xs => insertById x (sortById xs)

/-- The substitution performed on a skeleton's `svg`: for each `(name, id)`
pair in turn, every occurrence of `data-label-name="<name>"` is replaced by
`data-label-id="<id>"` (Python `str.replace` replaces all occurrences). -/
def substLabelPlaceholders (svg : String) (subs : List (String × Nat)) : String :=
  subs.foldl (fun s p =>
    s.replace ("data-label-name=\x22" ++ p.1 ++ "\x22")
      ("data-label-id=\x22" ++ toString p.2 ++ "\x22")) svg

section LabelOps

variable (getColor : String → List String → String)

/-- `models.Label.create` (models.py, outside the excerpt): inserts a row
under a fresh id and returns it. -/
def labelCreate (st : DbState) (owner : Nat) (name : Option String)
    (ltype : Option String) (color : String) (parentId : Option Nat) :
    LabelRow × DbState :=
  let row : LabelRow :=
    { id := st.nextId, owner := owner, name := name.getD "", ltype := ltype,
      color := color, parentId := parentId }
  (row, { st with nextId := st.nextId + 1, labels := st.labels ++ [row] })

/-- The skeleton-creation block of `create_labels` (serializers.py lines
376–383) and `update_labels` (lines 420–429): when the label's type is
skeleton, a `Skeleton` row rooted at it is created whose svg is the input
svg with, for each DB sublabel, every occurrence of the
`data-label-name` placeholder replaced by the `data-label-id` value. -/
def skeletonStep (row : LabelRow) (svg : String) (st : DbState) : DbState :=
  if row.ltype = some skeletonType then
    let svg2 := substLabelPlaceholders svg
      ((childrenOf st.labels row.id).map (fun c => (c.name, c.id)))
    { st with skeletons := st.skeletons ++ [(row.id, svg2)] }
  else st

/-- `LabelSerializer.create_labels` (serializers.py lines 341–389): one
label row per input label (any given id is dropped), colours accumulated
over the loop, recursion into `sublabels` with the created label as
parent, then the skeleton row for labels of type skeleton, then the
attribute specs. -/
def create_labels (owner : Nat) (parentLabel : Option Nat)
    (specs : List LabelSpec) (labelColors : List String) (st : DbState) :
    DbState :=
  match specs with
  | [] => st
  | .mk _ name ltype c _ svg attributes sublabels :: rest =>
    -- `if not label.get('color', None): label['color'] = get_label_color(...)`
    let color := pyOr c (getColor (name.getD "") labelColors)
    let (row, st1) := labelCreate st owner name ltype color parentLabel
    let st2 := create_labels owner (some row.id) sublabels [] st1
    let st3 := skeletonStep row svg st2
    let st4 := { st3 with
      attrSpecs := st3.attrSpecs ++ attributes.map (fun a => (row.id, a)) }
    create_labels owner parentLabel rest (labelColors ++ [color]) st4

inductive UErr where
  | notFound (id : Nat)
  | assertionFailed
deriving DecidableEq, Repr

/-- `LabelSerializer.update_label` (serializers.py lines 252–339).  With an
id, the label is fetched within the parent entity (`NotFound` otherwise),
its type updated unless the stored or requested type is skeleton, and its
name updated; without an id a fresh label is created.  A deleted label is
removed and `None` returned (the `assert validated_data['id']` fails on a
falsy id, i.e. a missing or zero id).  Otherwise the colour is fixed, the
row saved and the attribute specs get-or-created. -/
def update_label (owner : Nat) (parentLabel : Option Nat) (spec : LabelSpec)
    (st : DbState) : Except UErr (Option LabelRow × DbState) :=
  let st := { st with updCalls := st.updCalls + 1 }
  let fetched : Except UErr (LabelRow × DbState) :=
    match spec.id with
    | some i =>
      match st.labels.find? (fun r => r.id == i && r.owner == owner) with
      | none => .error (.notFound i)
      | some db =>
        let updatedType := pyOrOpt spec.ltype db.ltype
        let db :=
          if db.ltype = some skeletonType ∨ updatedType = some skeletonType then
            -- do not permit changing types from/to skeleton
            db
          else { db with ltype := updatedType }
        let db := { db with name := pyOr spec.name db.name }
        .ok (db, st)
    | none =>
      let (row, st1) := labelCreate st owner spec.name spec.ltype "" parentLabel
      .ok (row, st1)
  match fetched with
  | .error e => .error e
  | .ok (db, st1) =>
    if spec.deleted then
      -- `assert validated_data['id']`: Python truthiness, 0 and None fail
      match spec.id with
      | none => .error .assertionFailed
      | some 0 => .error .assertionFailed
      | some _ =>
        .ok (none,
          { st1 with
            labels := st1.labels.filter (fun r => r.id != db.id),
            attrSpecs := st1.attrSpecs.filter (fun a => a.1 != db.id) })
    else
      let otherColors :=
        ((sortById (st1.labels.filter
          (fun r => r.owner == owner && r.id != db.id))).map (fun r => r.color))
      let db := { db with color := pyOr spec.color (getColor db.name otherColors) }
      let st2 : DbState := { st1 with
        labels :=
          if st1.labels.any (fun r => r.id == db.id) then
            st1.labels.map (fun r => if r.id = db.id then db else r)
          else st1.labels ++ [db] }
      let st3 := { st2 with
        attrSpecs := spec.attributes.foldl
          (fun (acc : List (Nat × String)) a =>
            if acc.contains (db.id, a) then acc else acc ++ [(db.id, a)])
          st2.attrSpecs }
      .ok (some db, st3)

/-- The guard of serializers.py lines 420–429: the skeleton row is created
only for labels `update_labels` itself created, i.e. those given without an
id, when their type is skeleton. -/
def maybeSkeletonStep (i : Option Nat) (dbOpt : Option LabelRow)
    (svg : String) (st : DbState) : DbState :=
  if i = none then
    match dbOpt with
    | some row => skeletonStep row svg st
    | none => st
  else st

/-- `LabelSerializer.update_labels` (serializers.py lines 390–429): one
`update_label` call per input label, recursion into `sublabels` with the
updated label as parent unless the label is marked deleted, and the
skeleton row for labels it created (no id given) of type skeleton. -/
def update_labels (owner : Nat) (parentLabel : Option Nat)
    (specs : List LabelSpec) (st : DbState) : Except UErr DbState :=
  match specs with
  | [] => .ok st
  | .mk i n t c d svg attributes sublabels :: rest =>
    -- `sublabels` and `svg` are popped off the dictionary before
    -- `update_label` is called; `update_label` reads neither.
    match update_label getColor owner parentLabel
        (.mk i n t c d svg attributes sublabels) st with
    | .error e => .error e
    | .ok (dbOpt, st1) =>
      if d then
        update_labels owner parentLabel rest st1
      else
        match update_labels owner (dbOpt.map (fun r => r.id)) sublabels st1 with
        | .error e => .error e
        | .ok st2 =>
          update_labels owner parentLabel rest (maybeSkeletonStep i dbOpt svg st2)

end LabelOps

/-- `LabelSerializer.validate` (serializers.py lines 239–250). -/
def LabelSerializer_validate (lcl : Bool) (spec : LabelSpec) :
    Except String LabelSpec :=
  if lcl && spec.deleted then
    .error ("Labels cannot be deleted by updating in this endpoint. " ++
      "Please use the DELETE method instead.")
  else if spec.deleted && spec.id.isNone then
    .error "Deleted label must have an ID"
  else
    .ok spec

/-- The number of labels in a forest of label specifications. -/
def specCount : List LabelSpec → Nat
  | [] => 0
  | .mk _ _ _ _ _ _ _ subs :: rest => 1 + specCount subs + specCount rest

/-- The number of labels `update_labels` processes: every listed label, and
its sublabels only when it is not marked deleted. -/
def updCount : List LabelSpec → Nat
  | [] => 0
  | .mk _ _ _ _ d _ _ subs :: rest =>
    1 + (if d then 0 else updCount subs) + updCount rest

end Labels

end CVAT

namespace CVAT
namespace Labels

/-- C8 (confirmed): an update of an existing label (an id is given and found
within the parent entity) never changes the stored type from or to
`skeleton`: when the stored or the requested type is `skeleton` the stored
type is kept, otherwise a non-blank requested type is stored and a missing
or blank requested type leaves the stored type unchanged. -/
theorem update_label_skeleton_type_frozen
    (getColor : String → List String → String) (owner : Nat)
    (parentLabel : Option Nat) (spec : LabelSpec) (st : DbState)
    (i : Nat) (db : LabelRow) (res : LabelRow) (st' : DbState)
    (hid : spec.id = some i)
    (hfind : st.labels.find? (fun r => r.id == i && r.owner == owner) = some db)
    (hres : update_label getColor owner parentLabel spec st = .ok (some res, st')) :
    ((db.ltype = some skeletonType ∨ spec.ltype = some skeletonType) →
      res.ltype = db.ltype)
    ∧ (db.ltype ≠ some skeletonType → spec.ltype ≠ some skeletonType →
        ∀ t, spec.ltype = some t → t ≠ "" → res.ltype = some t)
    ∧ (db.ltype ≠ some skeletonType →
        (spec.ltype = none ∨ spec.ltype = some "") → res.ltype = db.ltype) := by
  simp only [update_label, hid, hfind] at hres
  by_cases hdel : spec.deleted
  · rw [if_pos hdel] at hres
    cases hi : i with
    | zero =>
      rw [hi] at hres
      exact absurd hres (by simp)
    | succ k =>
      rw [hi] at hres
      simp at hres
  · rw [if_neg hdel] at hres
    simp only [Except.ok.injEq, Prod.mk.injEq, Option.some.injEq] at hres
    have hty : res.ltype =
        (if db.ltype = some skeletonType ∨ pyOrOpt spec.ltype db.ltype = some skeletonType
         then db else { db with ltype := pyOrOpt spec.ltype db.ltype }).ltype := by
      rw [← hres.1]
    refine ⟨?_, ?_, ?_⟩
    · intro h
      have hcond : db.ltype = some skeletonType ∨
          pyOrOpt spec.ltype db.ltype = some skeletonType := by
        rcases h with h | h
        · exact Or.inl h
        · right
          rw [h]
          simp [pyOrOpt, skeletonType]
      rw [hty, if_pos hcond]
    · intro h1 h2 t ht htne
      have hcond : ¬(db.ltype = some skeletonType ∨
          pyOrOpt spec.ltype db.ltype = some skeletonType) := by
        rintro (h | h)
        · exact h1 h
        · rw [ht] at h
          simp only [pyOrOpt, if_neg htne] at h
          exact h2 (ht ▸ h)
      rw [hty, if_neg hcond]
      simp only [ht, pyOrOpt, if_neg htne]
    · intro h1 h2
      have hpy : pyOrOpt spec.ltype db.ltype = db.ltype := by
        rcases h2 with h | h <;> simp [h, pyOrOpt]
      have hcond : (db.ltype = some skeletonType ∨
          pyOrOpt spec.ltype db.ltype = some skeletonType) ∨
          ¬(db.ltype = some skeletonType ∨
            pyOrOpt spec.ltype db.ltype = some skeletonType) := em _
      rcases hcond with hc | hc
      · rw [hty, if_pos hc]
      · rw [hty, if_neg hc]
        simp [hpy]

end Labels
end CVAT

namespace CVAT
namespace Labels

theorem update_label_skeleton_type_frozen_witness :
    (⟨3, 7, "torso", some "skeleton", "#abc", none⟩ : LabelRow).ltype
      = (⟨3, 7, "body", some "skeleton", "#fff", none⟩ : LabelRow).ltype :=
  (update_label_skeleton_type_frozen (fun _ _ => "#000") 7 none
    (.mk (some 3) (some "torso") (some "rectangle") (some "#abc") false "" [] [])
    ⟨4, [⟨3, 7, "body", some "skeleton", "#fff", none⟩], [], [], 0⟩
    3 ⟨3, 7, "body", some "skeleton", "#fff", none⟩
    ⟨3, 7, "torso", some "skeleton", "#abc", none⟩
    ⟨4, [⟨3, 7, "torso", some "skeleton", "#abc", none⟩], [], [], 1⟩
    rfl rfl rfl).1 (Or.inl rfl)

/-- C9 counterexample: the input `{'deleted': True, 'id': 0}` passes
`LabelSerializer.validate` (which only checks `id is None`), yet when a
label with id 0 exists the deleted branch of `update_label` reaches
`assert validated_data['id']`, which fails on the falsy id 0. -/
theorem label_validate_assert_cex :
    LabelSerializer_validate false
        (.mk (some 0) (some "person") none (some "#ff0000") true "" [] [])
      = .ok (.mk (some 0) (some "person") none (some "#ff0000") true "" [] [])
    ∧ update_label (fun _ _ => "#000000") 7 none
        (.mk (some 0) (some "person") none (some "#ff0000") true "" [] [])
        ⟨1, [⟨0, 7, "person", none, "#ff0000", none⟩], [], [], 0⟩
      = .error .assertionFailed :=
  ⟨rfl, rfl⟩

/-- C9 (corrected): `validate` raises a ValidationError on every input with
`deleted` set and no id (with message 'Deleted label must have an ID' when
not on the dedicated label endpoint), so a validated deleted input has a
non-`None` id; the assertion in the deleted branch checks Python
truthiness, so it can still fail on id 0, but on every validated input
whose id is not 0 it cannot fail, and `update_label` then returns `None`
exactly when it deletes the label and a label instance otherwise. -/
theorem label_validate_update_consistency :
    (∀ lcl spec, spec.deleted = true → spec.id = none →
      ∃ msg, LabelSerializer_validate lcl spec = .error msg)
    ∧ (∀ spec, spec.deleted = true → spec.id = none →
        LabelSerializer_validate false spec = .error "Deleted label must have an ID")
    ∧ (∀ lcl spec, LabelSerializer_validate lcl spec = .ok spec →
        spec.deleted = true → spec.id ≠ none)
    ∧ (∀ lcl (spec : LabelSpec)
        (getColor : String → List String → String) (owner : Nat)
        (parentLabel : Option Nat) (st : DbState),
        LabelSerializer_validate lcl spec = .ok spec →
        spec.id ≠ some 0 →
        update_label getColor owner parentLabel spec st ≠ .error .assertionFailed
        ∧ ∀ res st', update_label getColor owner parentLabel spec st = .ok (res, st') →
            (res = none ↔ spec.deleted = true)) := by
  have hvalid : ∀ lcl spec, LabelSerializer_validate lcl spec = .ok spec →
      ¬(spec.deleted = true ∧ spec.id = none) := by
    intro lcl spec hok ⟨hdel, hid⟩
    simp only [LabelSerializer_validate, hdel, hid] at hok
    rcases hb : (lcl : Bool) with _ | _ <;> rw [hb] at hok <;> simp at hok
  refine ⟨?_, ?_, ?_, ?_⟩
  · intro lcl spec hdel hid
    cases lcl with
    | true =>
      refine ⟨"Labels cannot be deleted by updating in this endpoint. " ++
        "Please use the DELETE method instead.", ?_⟩
      simp [LabelSerializer_validate, hdel]
    | false =>
      refine ⟨"Deleted label must have an ID", ?_⟩
      simp [LabelSerializer_validate, hdel, hid]
  · intro spec hdel hid
    simp [LabelSerializer_validate, hdel, hid]
  · intro lcl spec hok hdel hid
    exact hvalid lcl spec hok ⟨hdel, hid⟩
  · intro lcl spec getColor owner parentLabel st hok hz
    cases hid : spec.id with
    | none =>
      have hdel : spec.deleted = false := by
        rcases hb : spec.deleted with _ | _
        · rfl
        · exact absurd ⟨hb, hid⟩ (hvalid lcl spec hok)
      constructor
      · simp [update_label, hid, hdel]
      · intro res st' hres
        simp only [update_label, hid, hdel, Bool.false_eq_true, if_false,
          Except.ok.injEq, Prod.mk.injEq] at hres
        rw [← hres.1]
        simp [hdel]
    | some i =>
      cases i with
      | zero => exact absurd hid hz
      | succ k =>
        cases hfind : st.labels.find? (fun r => r.id == k + 1 && r.owner == owner) with
        | none =>
          constructor
          · intro hres
            simp only [update_label, hid, hfind] at hres
            exact UErr.noConfusion (Except.error.inj hres)
          · intro res st' hres
            simp only [update_label, hid, hfind] at hres
            exact Except.noConfusion hres
        | some db =>
          rcases hb : spec.deleted with _ | _
          · constructor
            · intro hres
              simp only [update_label, hid, hfind, hb, Bool.false_eq_true,
                if_false] at hres
              exact Except.noConfusion hres
            · intro res st' hres
              simp only [update_label, hid, hfind, hb, Bool.false_eq_true,
                if_false, Except.ok.injEq, Prod.mk.injEq] at hres
              rw [← hres.1]
              simp [hb]
          · constructor
            · intro hres
              simp only [update_label, hid, hfind, hb, if_true] at hres
              exact Except.noConfusion hres
            · intro res st' hres
              simp only [update_label, hid, hfind, hb, if_true,
                Except.ok.injEq, Prod.mk.injEq] at hres
              rw [← hres.1]
              simp [hb]

theorem label_validate_update_consistency_witness :
    ((none : Option LabelRow) = none) ↔ (true = true) :=
  ((label_validate_update_consistency).2.2.2 false
    (.mk (some 1) none none (some "#fff") true "" [] [])
    (fun _ _ => "#000000") 7 none
    ⟨2, [⟨1, 7, "person", none, "#fff", none⟩], [], [], 0⟩
    rfl (by decide)).2 none ⟨2, [], [], [], 1⟩ rfl

end Labels
end CVAT


namespace CVAT
namespace Labels

theorem skeletonStep_labels (row : LabelRow) (svg : String) (st : DbState) :
    (skeletonStep row svg st).labels = st.labels := by
  rw [skeletonStep]
  split <;> rfl

theorem skeletonStep_updCalls (row : LabelRow) (svg : String) (st : DbState) :
    (skeletonStep row svg st).updCalls = st.updCalls := by
  rw [skeletonStep]
  split <;> rfl

theorem update_label_updCalls (g : String → List String → String)
    (owner : Nat) (pl : Option Nat) (spec : LabelSpec) (st : DbState)
    (res : Option LabelRow) (st' : DbState)
    (hres : update_label g owner pl spec st = .ok (res, st')) :
    st'.updCalls = st.updCalls + 1 := by
  cases hid : spec.id with
  | none =>
    rcases hb : spec.deleted with _ | _
    · simp only [update_label, hid, hb, Bool.false_eq_true, if_false,
        labelCreate, Except.ok.injEq, Prod.mk.injEq] at hres
      rw [← hres.2]
    · simp only [update_label, hid, hb, if_true] at hres
      exact Except.noConfusion hres
  | some i =>
    cases hfind : st.labels.find? (fun r => r.id == i && r.owner == owner) with
    | none =>
      simp only [update_label, hid, hfind] at hres
      exact Except.noConfusion hres
    | some db =>
      rcases hb : spec.deleted with _ | _
      · simp only [update_label, hid, hfind, hb, Bool.false_eq_true, if_false,
          Except.ok.injEq, Prod.mk.injEq] at hres
        rw [← hres.2]
      · cases i with
        | zero =>
          simp only [update_label, hid, hfind, hb, if_true] at hres
          exact Except.noConfusion hres
        | succ k =>
          simp only [update_label, hid, hfind, hb, if_true,
            Except.ok.injEq, Prod.mk.injEq] at hres
          rw [← hres.2]

theorem create_labels_length (g : String → List String → String) (owner : Nat) :
    ∀ (pl : Option Nat) (specs : List LabelSpec) (colors : List String)
      (st : DbState),
    (create_labels g owner pl specs colors st).labels.length
      = st.labels.length + specCount specs := by
  intro pl specs colors st
  induction pl, specs, colors, st using create_labels.induct g owner with
  | case1 pl colors st =>
    rw [create_labels]
    simp [specCount]
  | case2 pl colors st i n t c d svg a subs rest color row st1 hrow st2 st3 st4 ihsubs ihrest =>
    have hgoal : create_labels g owner pl (LabelSpec.mk i n t c d svg a subs :: rest) colors st
        = create_labels g owner pl rest (colors ++ [color]) st4 := by
      rw [create_labels, hrow]
    rw [hgoal, ihrest]
    have h4 : st4.labels = st3.labels := rfl
    have h3 : st3.labels = st2.labels := skeletonStep_labels row svg st2
    have hsublen : st2.labels.length = st1.labels.length + specCount subs := ihsubs
    have h1 : st1.labels.length = st.labels.length + 1 := by
      have hsnd := congrArg Prod.snd hrow
      simp only [labelCreate] at hsnd
      rw [← hsnd]
      simp
    rw [h4, h3, hsublen, h1, specCount]
    omega

theorem update_labels_updCalls (g : String → List String → String) (owner : Nat) :
    ∀ (pl : Option Nat) (specs : List LabelSpec) (st : DbState) (st' : DbState),
    update_labels g owner pl specs st = .ok st' →
    st'.updCalls = st.updCalls + updCount specs := by
  intro pl specs st
  induction pl, specs, st using update_labels.induct g owner with
  | case1 pl st =>
    intro st' h
    rw [update_labels] at h
    cases h
    simp [updCount]
  | case2 pl st i n t c d svg a subs rest e herr =>
    intro st' h
    rw [update_labels, herr] at h
    exact Except.noConfusion h
  | case3 pl st i n t c svg a subs rest dbOpt st1 hok ih =>
    intro st' h
    rw [update_labels, hok] at h
    simp only [if_true] at h
    have h1 := update_label_updCalls g owner pl _ st dbOpt st1 hok
    have h2 := ih st' h
    rw [h2, h1, updCount]
    simp
    omega
  | case4 pl st i n t c d svg a subs rest dbOpt st1 hok hnd e hsub ih =>
    intro st' h
    have hd : d = false := by
      cases d
      · rfl
      · exact absurd rfl hnd
    rw [update_labels, hok, hd] at h
    simp only [Bool.false_eq_true, if_false, hsub] at h
    exact Except.noConfusion h
  | case5 pl st i n t c d svg a subs rest dbOpt st1 hok hnd st2 hsub ih1 ih2 =>
    intro st' h
    have hd : d = false := by
      cases d
      · rfl
      · exact absurd rfl hnd
    rw [update_labels, hok, hd] at h
    simp only [Bool.false_eq_true, if_false, hsub] at h
    have h1 := update_label_updCalls g owner pl _ st dbOpt st1 hok
    have h2 := ih1 st2 hsub
    have h3 := ih2 st' h
    have hst3 : (maybeSkeletonStep i dbOpt svg st2).updCalls = st2.updCalls := by
      rw [maybeSkeletonStep.eq_def]
      split
      · cases dbOpt with
        | some row => exact skeletonStep_updCalls row svg st2
        | none => rfl
      · rfl
    rw [hst3] at h3
    rw [h3, h2, h1, updCount, hd]
    simp
    omega

end Labels
end CVAT

namespace CVAT
namespace Labels

/-- C7 (confirmed): `create_labels` and `update_labels` recurse exactly once
per input label on that label's `sublabels` list — `create_labels` creates
exactly one label row per node of the input forest, and `update_labels`
invokes `update_label` exactly once per node, skipping the subtrees of
labels marked deleted — and both are total functions of the input forest,
so the recursion terminates on every finite nested specification. -/
theorem labels_recursion_counts :
    (∀ (g : String → List String → String) (owner : Nat) (pl : Option Nat)
        (specs : List LabelSpec) (colors : List String) (st : DbState),
      (create_labels g owner pl specs colors st).labels.length
        = st.labels.length + specCount specs)
    ∧ (∀ (g : String → List String → String) (owner : Nat) (pl : Option Nat)
        (specs : List LabelSpec) (st st' : DbState),
      update_labels g owner pl specs st = .ok st' →
        st'.updCalls = st.updCalls + updCount specs) :=
  ⟨fun g owner pl specs colors st => create_labels_length g owner pl specs colors st,
   fun g owner pl specs st st' h => update_labels_updCalls g owner pl specs st st' h⟩

theorem labels_recursion_counts_witness :
    (⟨2, [], [], [], 1⟩ : DbState).updCalls
      = (⟨2, [⟨1, 7, "a", none, "#fff", none⟩], [], [], 0⟩ : DbState).updCalls
        + updCount [.mk (some 1) none none none true "" [] []] :=
  labels_recursion_counts.2 (fun _ _ => "#000000") 7 none
    [.mk (some 1) none none none true "" [] []]
    ⟨2, [⟨1, 7, "a", none, "#fff", none⟩], [], [], 0⟩ ⟨2, [], [], [], 1⟩
    (by
      simp only [update_labels]
      rw [show update_label (fun _ _ => "#000000") 7 none
          (.mk (some 1) none none none true "" [] [])
          ⟨2, [⟨1, 7, "a", none, "#fff", none⟩], [], [], 0⟩
        = Except.ok (none, ⟨2, [], [], [], 1⟩) from rfl]
      rfl)

end Labels
end CVAT

namespace CVAT

/-! ## `TaskWriteSerializer` (serializers.py lines 825–1003)

Only the data the task-move logic reads is modelled: labels carry their
id, name and parent label's name; a project carries its labels and the
dimensions of its tasks (`project.tasks` is consulted only for
`count()` and `first().dimension`); annotations (`LabeledTrack`,
`LabeledShape`, `LabeledImage`) carry the task of their job
(`job__segment__task`) and their label foreign key. -/

namespace TaskWrite

structure DbLabel where
  id : Nat
  name : String
  parent : Option String
deriving DecidableEq, Repr

structure Project where
  id : Nat
  labels : List DbLabel
  taskDims : List String
deriving DecidableEq, Repr

structure TaskInst where
  id : Nat
  projectId : Option Nat
  labelSet : List DbLabel
  dimension : String
deriving DecidableEq, Repr

/-- One entry of the validated `label_set` as read by `validate`:
`x.get('id')`, `x.get('name', default)` and `x.get('parent', default)`;
a field is `none` when the key is absent. -/
structure LabelUpd where
  id : Option Nat
  name : Option String
  parent : Option (Option String)
deriving DecidableEq, Repr

structure TWAttrs where
  /-- outer `none`: no `project_id` key; `some none`: present but null -/
  project_id : Option (Option Nat)
  label_set : List LabelUpd
deriving DecidableEq, Repr

inductive VErr where
  | validationError (msg : String)
  /-- the uncaught `Project.DoesNotExist` raised by
  `models.Project.objects.get(id=project_id)` at line 985 -/
  | projectDoesNotExist
deriving DecidableEq, Repr

def findProject (projects : List Project) (pid : Nat) : Option Project :=
  projects.find? (fun p => p.id == pid)

/-- Insert a sublabel name into the per-parent-name dictionary of name
sets, mirroring `new_sublabel_names[parent.name].add(...)`. -/
def addSub (m : List (String × Finset String)) (p n : String) :
    List (String × Finset String) :=
  match m with
  | [] => [(p, {n})]
  | (q, s) :: rest =>
    if q = p then (q, insert n s) :: rest else (q, s) :: addSub rest p n

def lookupSub (m : List (String × Finset String)) (p : String) :
    Option (Finset String) :=
  (m.find? (fun e => e.1 == p)).map (fun e => e.2)

/-- The loop of `validate` lines 967–984 over the old labels, producing
`new_label_names` and `new_sublabel_names`: a label mentioned in the
submitted `label_set` (matched by id) contributes its possibly renamed
name under its possibly overridden parent, any other old label contributes
its stored name under its stored parent. -/
def collectNewNames (label_set : List LabelUpd) (oldLabels : List DbLabel) :
    Finset String × List (String × Finset String) :=
  oldLabels.foldl (fun acc old =>
    match label_set.filter (fun x => x.id == some old.id) with
    | nl :: _ =>
      let parent := match nl.parent with
        | some p => p
        | none => old.parent
      let nm := nl.name.getD old.name
      match parent with
      | some pn => (acc.1, addSub acc.2 pn nm)
      | none => (insert nm acc.1, acc.2)
    | [] =>
      match old.parent with
      | some pn => (acc.1, addSub acc.2 pn old.name)
      | none => (insert old.name acc.1, acc.2)) (∅, [])

/-- The loop of `validate` lines 988–995 over the target project's labels. -/
def collectTargetNames (labels : List DbLabel) :
    Finset String × List (String × Finset String) :=
  labels.foldl (fun acc l =>
    match l.parent with
    | some pn => (acc.1, addSub acc.2 pn l.name)
    | none => (insert l.name acc.1, acc.2)) (∅, [])

def labelMapMessage : String :=
  "All task or project label names must be mapped to the target project"

/-- `TaskWriteSerializer.validate` (serializers.py lines 954–1003). -/
def TaskWriteSerializer_validate (projects : List Project)
    (inst : Option TaskInst) (attrs : TWAttrs) : Except VErr TWAttrs :=
  match attrs.project_id, inst with
  | some project_id, some instVal =>
    let earlyErr : Option VErr :=
      match project_id with
      | some pid =>
        if (findProject projects pid).isNone then
          some (.validationError ("Cannot find project with ID " ++ toString pid))
        else none
      | none => none
    match earlyErr with
    | some e => .error e
    | none =>
      let oldLabels :=
        match instVal.projectId with
        | some opid => ((findProject projects opid).map (fun p => p.labels)).getD []
        | none => instVal.labelSet
      let collected := collectNewNames attrs.label_set oldLabels
      -- `target_project = models.Project.objects.get(id=project_id)`
      match project_id with
      | none => .error .projectDoesNotExist
      | some pid =>
        match findProject projects pid with
        | none => .error .projectDoesNotExist
        | some target =>
          let targetCollected := collectTargetNames target.labels
          if ¬ collected.1 ⊆ targetCollected.1 then
            .error (.validationError labelMapMessage)
          else if collected.2.any
              (fun e => decide (lookupSub targetCollected.2 e.1 ≠ some e.2)) then
            .error (.validationError labelMapMessage)
          else .ok attrs
  | _, _ => .ok attrs

/-- C3 (confirmed): on a task move request (a `project_id` key in the input
and an existing serializer instance) targeting an existing project,
`validate` raises the ValidationError 'All task or project label names must
be mapped to the target project' exactly when the set of (possibly
renamed) top-level source label names is not a subset of the target
project's top-level label names, or some per-parent set of sublabel names
differs from the target project's set for that parent; otherwise the
attributes are returned unchanged. -/
theorem task_validate_label_mapping (projects : List Project)
    (inst : TaskInst) (label_set : List LabelUpd) (pid : Nat) (target : Project)
    (htarget : findProject projects pid = some target) :
    (let oldLabels :=
      match inst.projectId with
      | some opid => ((findProject projects opid).map (fun p => p.labels)).getD []
      | none => inst.labelSet
     let collected := collectNewNames label_set oldLabels
     let targetCollected := collectTargetNames target.labels
     ((¬ collected.1 ⊆ targetCollected.1
        ∨ ∃ e ∈ collected.2, lookupSub targetCollected.2 e.1 ≠ some e.2) →
       TaskWriteSerializer_validate projects (some inst) ⟨some (some pid), label_set⟩
         = .error (.validationError labelMapMessage))
     ∧ (collected.1 ⊆ targetCollected.1 →
        (∀ e ∈ collected.2, lookupSub targetCollected.2 e.1 = some e.2) →
        TaskWriteSerializer_validate projects (some inst) ⟨some (some pid), label_set⟩
          = .ok ⟨some (some pid), label_set⟩)) := by
  intro oldLabels collected targetCollected
  have hbody : TaskWriteSerializer_validate projects (some inst)
        ⟨some (some pid), label_set⟩
      = (if ¬ collected.1 ⊆ targetCollected.1 then
          .error (.validationError labelMapMessage)
        else if collected.2.any
            (fun e => decide (lookupSub targetCollected.2 e.1 ≠ some e.2)) then
          .error (.validationError labelMapMessage)
        else .ok ⟨some (some pid), label_set⟩) := by
    simp only [TaskWriteSerializer_validate]
    rw [htarget]
    rfl
  constructor
  · intro hcond
    rw [hbody]
    by_cases hsub : collected.1 ⊆ targetCollected.1
    · rw [if_neg (not_not_intro hsub)]
      have hex : ∃ e ∈ collected.2, lookupSub targetCollected.2 e.1 ≠ some e.2 := by
        rcases hcond with h | h
        · exact absurd hsub h
        · exact h
      have hany : collected.2.any
          (fun e => decide (lookupSub targetCollected.2 e.1 ≠ some e.2)) = true := by
        rw [List.any_eq_true]
        obtain ⟨e, he, hne⟩ := hex
        exact ⟨e, he, by simpa using hne⟩
      rw [if_pos hany]
    · rw [if_pos hsub]
  · intro hsub hall
    rw [hbody, if_neg (not_not_intro hsub)]
    have hany : collected.2.any
        (fun e => decide (lookupSub targetCollected.2 e.1 ≠ some e.2)) = false := by
      rw [List.any_eq_false]
      intro e he
      simpa using hall e he
    rw [hany]
    simp

end TaskWrite
end CVAT

namespace CVAT
namespace TaskWrite

theorem task_validate_label_mapping_witness :
    TaskWriteSerializer_validate
        [⟨5, [⟨10, "person", none⟩], []⟩]
        (some ⟨1, none, [⟨3, "person", none⟩], "2d"⟩)
        ⟨some (some 5), []⟩
      = .ok ⟨some (some 5), []⟩ :=
  (task_validate_label_mapping [⟨5, [⟨10, "person", none⟩], []⟩]
    ⟨1, none, [⟨3, "person", none⟩], "2d"⟩ [] 5 ⟨5, [⟨10, "person", none⟩], []⟩
    rfl).2 (by decide) (by decide)

/-! ### The task move of `TaskWriteSerializer.update`
(serializers.py lines 902–921 and 946), for a task that has no project yet. -/

structure TAttr where
  id : Nat
  labelId : Nat
deriving DecidableEq, Repr

inductive AnnKind where
  | track
  | shape
  | image
deriving DecidableEq, Repr

/-- A `LabeledTrack`/`LabeledShape`/`LabeledImage` row: the task of its job
(`job__segment__task`) and its label foreign key. -/
structure Ann where
  kind : AnnKind
  taskId : Nat
  labelId : Option Nat
deriving DecidableEq, Repr

/-- Lines 909–913: the target-project label selected for an old task
label — the first project label with the same name (and, when the old
label has a parent, the same parent label name); `filter(...).first()`
yields `None` when there is no match. -/
def selectNewLabel (projLabels : List DbLabel) (old : DbLabel) :
    Option DbLabel :=
  match old.parent with
  | some pn =>
    (projLabels.filter (fun nl => nl.name == old.name && nl.parent == some pn)).head?
  | none =>
    (projLabels.filter (fun nl => nl.name == old.name)).head?

/-- The loop of lines 908–920: per old label, its attribute specs are
deleted and every annotation of the task's jobs referencing it is
re-pointed at the selected target-project label. -/
def moveLabelsLoop (task : TaskInst) (projLabels : List DbLabel)
    (oldLabels : List DbLabel) (attrSpecs : List TAttr) (anns : List Ann) :
    List TAttr × List Ann :=
  match oldLabels with
  | [] => (attrSpecs, anns)
  | old :: rest =>
    let newLabel := selectNewLabel projLabels old
    let attrSpecs1 := attrSpecs.filter (fun a => a.labelId != old.id)
    let anns1 := anns.map (fun a =>
      if a.taskId == task.id && a.labelId == some old.id then
        { a with labelId := newLabel.map (fun l => l.id) }
      else a)
    moveLabelsLoop task projLabels rest attrSpecs1 anns1

/-- The branch of `TaskWriteSerializer.update` for a validated `project_id`
different from the task's current one when the task has no project yet
(serializers.py lines 902–921 and 946): after the dimension check, the
annotation re-keying loop runs, the task's own label set is deleted and
the task joins the target project.  (The other branch, moving between two
projects, lines 922–945, is outside this claim.) -/
def taskUpdateMoveNoProject (projects : List Project) (task : TaskInst)
    (pid : Nat) (attrSpecs : List TAttr) (anns : List Ann) :
    Except String (TaskInst × List TAttr × List Ann) :=
  match findProject projects pid with
  | none => .error "Project matching query does not exist."
  | some project =>
    if project.taskDims ≠ [] ∧ project.taskDims.head? ≠ some task.dimension then
      .error "Dimension of the task must be the same as other tasks in project"
    else
      let moved := moveLabelsLoop task project.labels task.labelSet attrSpecs anns
      .ok ({ task with labelSet := [], projectId := some project.id },
        moved.1, moved.2)

theorem mem_of_head?_eq_some {α : Type} {l : List α} {a : α}
    (h : l.head? = some a) : a ∈ l := by
  cases l with
  | nil => exact Option.noConfusion h
  | cons x xs =>
    rw [List.head?_cons, Option.some.injEq] at h
    rw [← h]
    exact List.mem_cons_self x xs

theorem selectNewLabel_spec (projLabels : List DbLabel) (old : DbLabel)
    (nl : DbLabel) (hsel : selectNewLabel projLabels old = some nl) :
    nl ∈ projLabels ∧ nl.name = old.name ∧
      (∀ pn, old.parent = some pn → nl.parent = some pn) := by
  rw [selectNewLabel] at hsel
  cases hp : old.parent with
  | some pn =>
    rw [hp] at hsel
    have hmem := mem_of_head?_eq_some hsel
    have hfilter := List.mem_filter.mp hmem
    simp only [Bool.and_eq_true, beq_iff_eq] at hfilter
    exact ⟨hfilter.1, hfilter.2.1, fun pn' hpn' => by
      cases hpn'
      exact hfilter.2.2⟩
  | none =>
    rw [hp] at hsel
    have hmem := mem_of_head?_eq_some hsel
    have hfilter := List.mem_filter.mp hmem
    simp only [beq_iff_eq] at hfilter
    exact ⟨hfilter.1, hfilter.2, fun pn' hpn' => Option.noConfusion hpn'⟩

end TaskWrite
end CVAT

namespace CVAT
namespace TaskWrite

theorem moveLabelsLoop_fst (task : TaskInst) (pls : List DbLabel)
    (olds : List DbLabel) (attrs : List TAttr) (anns : List Ann) :
    (moveLabelsLoop task pls olds attrs anns).1
      = attrs.filter (fun a => olds.all (fun l => a.labelId != l.id)) := by
  induction olds generalizing attrs anns with
  | nil => simp [moveLabelsLoop]
  | cons old rest ih =>
    rw [moveLabelsLoop]
    rw [ih, List.filter_filter]
    congr 1
    funext a
    simp [List.all_cons, Bool.and_comm]

/-- The cumulative effect of the loop on one annotation row. -/
def applyMove (task : TaskInst) (pls : List DbLabel) (olds : List DbLabel)
    (a : Ann) : Ann :=
  olds.foldl (fun a old =>
    if a.taskId == task.id && a.labelId == some old.id then
      { a with labelId := (selectNewLabel pls old).map (fun l => l.id) }
    else a) a

/-- The per-annotation description of the move: an annotation of this task
referencing one of the task's labels is re-pointed at the label selected
for it in the target project, every other annotation is untouched. -/
def reassign (task : TaskInst) (pls : List DbLabel) (olds : List DbLabel)
    (a : Ann) : Ann :=
  match olds.find? (fun l => some l.id == a.labelId) with
  | some l =>
    if a.taskId = task.id then
      { a with labelId := (selectNewLabel pls l).map (fun nl => nl.id) }
    else a
  | none => a

theorem moveLabelsLoop_snd (task : TaskInst) (pls : List DbLabel)
    (olds : List DbLabel) (attrs : List TAttr) (anns : List Ann) :
    (moveLabelsLoop task pls olds attrs anns).2
      = anns.map (applyMove task pls olds) := by
  induction olds generalizing attrs anns with
  | nil =>
    rw [moveLabelsLoop]
    have : applyMove task pls [] = fun a => a := rfl
    rw [this, List.map_id']
  | cons old rest ih =>
    rw [moveLabelsLoop]
    rw [ih, List.map_map]
    congr 1

theorem applyMove_id (task : TaskInst) (pls : List DbLabel)
    (olds : List DbLabel) (a : Ann)
    (h : ∀ l ∈ olds, a.labelId ≠ some l.id) :
    applyMove task pls olds a = a := by
  induction olds with
  | nil => rfl
  | cons old rest ih =>
    have hstep : (if a.taskId == task.id && a.labelId == some old.id then
        { a with labelId := (selectNewLabel pls old).map (fun l => l.id) }
      else a) = a := by
      rw [if_neg]
      simp only [Bool.and_eq_true, beq_iff_eq, not_and]
      intro _ hl
      exact h old (List.mem_cons_self _ _) hl
    show applyMove task pls rest ((if a.taskId == task.id
        && a.labelId == some old.id then _ else a)) = a
    rw [hstep]
    exact ih (fun l hl => h l (List.mem_cons_of_mem _ hl))

theorem applyMove_eq_reassign (task : TaskInst) (pls : List DbLabel)
    (olds : List DbLabel) (a : Ann)
    (hnodup : (olds.map DbLabel.id).Nodup)
    (hdisj : ∀ l ∈ olds, ∀ pl ∈ pls, l.id ≠ pl.id) :
    applyMove task pls olds a = reassign task pls olds a := by
  induction olds generalizing a with
  | nil => rfl
  | cons old rest ih =>
    simp only [List.map_cons, List.nodup_cons] at hnodup
    obtain ⟨hid_notin, hnodup'⟩ := hnodup
    have hshow : applyMove task pls (old :: rest) a
        = applyMove task pls rest (if a.taskId == task.id
            && a.labelId == some old.id then
            { a with labelId := (selectNewLabel pls old).map (fun l => l.id) }
          else a) := rfl
    by_cases hlid : a.labelId = some old.id
    · have hfind : (old :: rest).find? (fun l => some l.id == a.labelId)
          = some old := by
        apply List.find?_cons_of_pos
        simp [hlid]
      by_cases htid : a.taskId = task.id
      · have hcond : (a.taskId == task.id && a.labelId == some old.id) = true := by
          simp [htid, hlid]
        rw [hshow, hcond]
        simp only [if_true]
        have huntouched : applyMove task pls rest
            { a with labelId := (selectNewLabel pls old).map (fun l => l.id) }
            = { a with labelId := (selectNewLabel pls old).map (fun l => l.id) } := by
          apply applyMove_id
          intro l hl
          cases hsel : selectNewLabel pls old with
          | none => simp
          | some nl =>
            have hspec := selectNewLabel_spec pls old nl hsel
            have : l.id ≠ nl.id := hdisj l (List.mem_cons_of_mem _ hl) nl hspec.1
            simp only [Option.map_some]
            intro hc
            exact this (by injection hc with h; exact h.symm)
        rw [huntouched]
        simp only [reassign, hfind]
        simp [htid]
      · have hcond : (a.taskId == task.id && a.labelId == some old.id) = false := by
          simp [htid]
        rw [hshow, hcond]
        simp only [Bool.false_eq_true, if_false]
        have huntouched : applyMove task pls rest a = a := by
          apply applyMove_id
          intro l hl
          rw [hlid]
          intro hc
          apply hid_notin
          have : old.id = l.id := by injection hc
          rw [this]
          exact List.mem_map_of_mem DbLabel.id hl
        rw [huntouched]
        simp only [reassign, hfind]
        simp [htid]
    · have hfind : (old :: rest).find? (fun l => some l.id == a.labelId)
          = rest.find? (fun l => some l.id == a.labelId) := by
        apply List.find?_cons_of_neg
        simp only [beq_iff_eq]
        intro hc
        exact hlid hc.symm
      have hcond : (a.taskId == task.id && a.labelId == some old.id) = false := by
        have hbe : (a.labelId == some old.id) = false := by
          rw [beq_eq_false_iff_ne]
          exact hlid
        rw [hbe, Bool.and_false]
      rw [hshow, hcond]
      simp only [Bool.false_eq_true, if_false]
      rw [ih a hnodup' (fun l hl => hdisj l (List.mem_cons_of_mem _ hl))]
      simp only [reassign]
      rw [hfind]

end TaskWrite
end CVAT

namespace CVAT
namespace TaskWrite

/-- C1 (confirmed): when `TaskWriteSerializer.update` is given a
`project_id` different from the task's current one and the task has no
project yet, then — provided the target project exists, the dimension
check passes, each task label has a same-named match in the target
project, and label row ids are unique across the two label sets (the
table's primary-key invariant) — for every label of the task a label of
the target project with the same name (and, for sublabels, the same
parent label name) is selected; every `LabeledTrack`, `LabeledShape` and
`LabeledImage` of the task's jobs that references the old label is
updated to reference the selected label; the old labels' attribute specs
are deleted; the task's own label set is deleted and the task's project
becomes the target project. -/
theorem task_move_new_project (projects : List Project) (task : TaskInst)
    (pid : Nat) (attrSpecs : List TAttr) (anns : List Ann) (project : Project)
    (hproj : findProject projects pid = some project)
    (hdim : ¬(project.taskDims ≠ [] ∧ project.taskDims.head? ≠ some task.dimension))
    (hnoproj : task.projectId = none)
    (hmatch : ∀ l ∈ task.labelSet, (selectNewLabel project.labels l).isSome)
    (hnodup : (task.labelSet.map DbLabel.id).Nodup)
    (hdisj : ∀ l ∈ task.labelSet, ∀ pl ∈ project.labels, l.id ≠ pl.id) :
    ∃ attrs' anns',
      taskUpdateMoveNoProject projects task pid attrSpecs anns
        = .ok ({ task with labelSet := [], projectId := some project.id },
            attrs', anns')
      ∧ (∀ a ∈ attrs', ∀ l ∈ task.labelSet, a.labelId ≠ l.id)
      ∧ (∀ a ∈ attrSpecs, (∀ l ∈ task.labelSet, a.labelId ≠ l.id) → a ∈ attrs')
      ∧ anns' = anns.map (reassign task project.labels task.labelSet)
      ∧ (∀ l ∈ task.labelSet, ∃ nl, selectNewLabel project.labels l = some nl
          ∧ nl ∈ project.labels ∧ nl.name = l.name
          ∧ (∀ pn, l.parent = some pn → nl.parent = some pn)) := by
  refine ⟨(moveLabelsLoop task project.labels task.labelSet attrSpecs anns).1,
          (moveLabelsLoop task project.labels task.labelSet attrSpecs anns).2,
          ?_, ?_, ?_, ?_, ?_⟩
  · simp only [taskUpdateMoveNoProject, hproj]
    rw [if_neg hdim]
  · intro a ha l hl
    rw [moveLabelsLoop_fst] at ha
    have hall := (List.mem_filter.mp ha).2
    rw [List.all_eq_true] at hall
    simpa using hall l hl
  · intro a ha hnone
    rw [moveLabelsLoop_fst]
    apply List.mem_filter.mpr
    refine ⟨ha, ?_⟩
    rw [List.all_eq_true]
    intro l hl
    simpa using hnone l hl
  · rw [moveLabelsLoop_snd]
    have hfun : applyMove task project.labels task.labelSet
        = reassign task project.labels task.labelSet :=
      funext (fun a => applyMove_eq_reassign task project.labels task.labelSet a
        hnodup hdisj)
    rw [hfun]
  · intro l hl
    have hs := hmatch l hl
    obtain ⟨nl, hnl⟩ := Option.isSome_iff_exists.mp hs
    have hspec := selectNewLabel_spec project.labels l nl hnl
    exact ⟨nl, hnl, hspec.1, hspec.2.1, hspec.2.2⟩

theorem task_move_new_project_witness :
    ∃ attrs' anns',
      taskUpdateMoveNoProject [⟨5, [⟨10, "person", none⟩], ["2d"]⟩]
          ⟨1, none, [⟨3, "person", none⟩], "2d"⟩ 5 [⟨100, 3⟩]
          [⟨.shape, 1, some 3⟩]
        = .ok ({ (⟨1, none, [⟨3, "person", none⟩], "2d"⟩ : TaskInst) with
            labelSet := [], projectId := some 5 }, attrs', anns')
      ∧ (∀ a ∈ attrs', ∀ l ∈ [(⟨3, "person", none⟩ : DbLabel)], a.labelId ≠ l.id)
      ∧ (∀ a ∈ [(⟨100, 3⟩ : TAttr)],
          (∀ l ∈ [(⟨3, "person", none⟩ : DbLabel)], a.labelId ≠ l.id) → a ∈ attrs')
      ∧ anns' = [(⟨.shape, 1, some 3⟩ : Ann)].map
          (reassign ⟨1, none, [⟨3, "person", none⟩], "2d"⟩
            [⟨10, "person", none⟩] [⟨3, "person", none⟩])
      ∧ (∀ l ∈ [(⟨3, "person", none⟩ : DbLabel)],
          ∃ nl, selectNewLabel [⟨10, "person", none⟩] l = some nl
          ∧ nl ∈ [(⟨10, "person", none⟩ : DbLabel)] ∧ nl.name = l.name
          ∧ (∀ pn, l.parent = some pn → nl.parent = some pn)) :=
  task_move_new_project [⟨5, [⟨10, "person", none⟩], ["2d"]⟩]
    ⟨1, none, [⟨3, "person", none⟩], "2d"⟩ 5 [⟨100, 3⟩] [⟨.shape, 1, some 3⟩]
    ⟨5, [⟨10, "person", none⟩], ["2d"]⟩ rfl (by decide) rfl (by decide)
    (by decide) (by decide)

end TaskWrite
end CVAT

namespace CVAT
namespace Labels

/-- All nodes of a forest of label specifications. -/
def specNodes : List LabelSpec → List LabelSpec
  | [] => []
  | .mk i n t c d svg a subs :: rest =>
    .mk i n t c d svg a subs :: (specNodes subs ++ specNodes rest)

/-- The database invariant the label table maintains: every row id is below
the id counter and every parent foreign key references such an id. -/
def labelsWF (st : DbState) : Prop :=
  ∀ r ∈ st.labels, r.id < st.nextId ∧ ∀ p, r.parentId = some p → p < st.nextId

/-- The label rows added by a phase (label creation only appends rows). -/
def newRows (st st' : DbState) : List LabelRow :=
  st'.labels.drop st.labels.length

/-- The skeleton rows added by a phase (skeletons are only ever appended). -/
def newSkels (st st' : DbState) : List (Nat × String) :=
  st'.skeletons.drop st.skeletons.length

theorem newRows_self (st : DbState) : newRows st st = [] :=
  List.drop_length _

theorem newSkels_self (st : DbState) : newSkels st st = [] :=
  List.drop_length _

theorem newRows_of_append (st st' : DbState) (tail : List LabelRow)
    (h : st'.labels = st.labels ++ tail) : newRows st st' = tail := by
  rw [newRows, h, List.drop_left]

theorem newSkels_of_append (st st' : DbState) (tail : List (Nat × String))
    (h : st'.skeletons = st.skeletons ++ tail) : newSkels st st' = tail := by
  rw [newSkels, h, List.drop_left]

theorem childrenOf_append (l1 l2 : List LabelRow) (pid : Nat) :
    childrenOf (l1 ++ l2) pid = childrenOf l1 pid ++ childrenOf l2 pid :=
  List.filter_append ..

theorem childrenOf_eq_nil (l : List LabelRow) (pid : Nat)
    (h : ∀ r ∈ l, r.parentId ≠ some pid) : childrenOf l pid = [] := by
  rw [childrenOf]
  apply List.filter_eq_nil_iff.mpr
  intro r hr
  simpa using h r hr

theorem childrenOf_stable (base tail : List LabelRow) (rid : Nat)
    (h : ∀ r ∈ tail, r.parentId ≠ some rid) :
    childrenOf (base ++ tail) rid = childrenOf base rid := by
  rw [childrenOf_append, childrenOf_eq_nil tail rid h, List.append_nil]

theorem skeletonStep_nextId (row : LabelRow) (svg : String) (st : DbState) :
    (skeletonStep row svg st).nextId = st.nextId := by
  rw [skeletonStep]
  split <;> rfl

theorem skeletonStep_skeletons (row : LabelRow) (svg : String) (st : DbState) :
    (skeletonStep row svg st).skeletons
      = st.skeletons ++ (if row.ltype = some skeletonType then
          [(row.id, substLabelPlaceholders svg
            ((childrenOf st.labels row.id).map (fun ch => (ch.name, ch.id))))]
        else []) := by
  rw [skeletonStep]
  split
  · rfl
  · simp

/-- The facts one run of `create_labels` establishes: ids only grow and the
invariant is kept; rows and skeleton rows are appended; every appended row
is fresh and is attached either to the call's parent label or to a fresh
row; the rows attached to the call's parent are exactly the input labels,
in order, with their names and types; every new skeleton row belongs to a
skeleton-typed input node and carries the placeholder-substituted input
svg over the label's DB sublabels, which are exactly the node's sublabels;
and every created skeleton-typed row got a skeleton row. -/
structure CreateFacts (owner : Nat) (pl : Option Nat) (specs : List LabelSpec)
    (st st' : DbState) : Prop where
  mono : st.nextId ≤ st'.nextId
  wf : labelsWF st'
  labels_eq : st'.labels = st.labels ++ newRows st st'
  rows_bound : ∀ r ∈ newRows st st', st.nextId ≤ r.id
  rows_parent : ∀ r ∈ newRows st st',
    r.parentId = pl ∨ ∃ q, r.parentId = some q ∧ st.nextId ≤ q
  top_rows : ((newRows st st').filter (fun r => r.parentId == pl)).map
      (fun r => (r.name, r.ltype))
    = specs.map (fun s => (s.name.getD "", s.ltype))
  skels_eq : st'.skeletons = st.skeletons ++ newSkels st st'
  skels_spec : ∀ sk ∈ newSkels st st', ∃ spec ∈ specNodes specs,
    spec.ltype = some skeletonType ∧ st.nextId ≤ sk.1 ∧ sk.1 < st'.nextId ∧
    sk.2 = substLabelPlaceholders spec.svg
      ((childrenOf st'.labels sk.1).map (fun ch => (ch.name, ch.id))) ∧
    (childrenOf st'.labels sk.1).map (fun ch => (ch.name, ch.ltype))
      = spec.sublabels.map (fun s => (s.name.getD "", s.ltype))
  rows_skel : ∀ r ∈ newRows st st', r.ltype = some skeletonType →
    ∃ s, (r.id, s) ∈ newSkels st st'

end Labels
end CVAT

namespace CVAT
namespace Labels

theorem create_labels_facts (g : String → List String → String) (owner : Nat) :
    ∀ (pl : Option Nat) (specs : List LabelSpec) (colors : List String)
      (st : DbState),
    labelsWF st → (∀ p, pl = some p → p < st.nextId) →
    CreateFacts owner pl specs st (create_labels g owner pl specs colors st) := by
  intro pl specs colors st
  induction pl, specs, colors, st using create_labels.induct g owner with
  | case1 pl colors st =>
    intro hwf hpl
    rw [create_labels]
    refine ⟨le_refl _, hwf, ?_, ?_, ?_, ?_, ?_, ?_, ?_⟩ <;>
      simp [newRows_self, newSkels_self, specNodes]
  | case2 pl colors st i n t c d svg a subs rest color row st1 hrow st2 st3 st4 ihsubs ihrest =>
    intro hwf hpl
    rw [labelCreate, Prod.mk.injEq] at hrow
    obtain ⟨hR, hS⟩ := hrow
    subst hR
    subst hS
    have hwf1 : labelsWF ({ st with
        nextId := st.nextId + 1
        labels := st.labels ++ [⟨st.nextId, owner, n.getD "", t, color, pl⟩] }) := by
      intro r hr
      rcases List.mem_append.mp hr with hold | hnew
      · obtain ⟨h1, h2⟩ := hwf r hold
        exact ⟨Nat.lt_succ_of_lt h1, fun p hp => Nat.lt_succ_of_lt (h2 p hp)⟩
      · rcases List.mem_singleton.mp hnew with rfl
        exact ⟨Nat.lt_succ_self _, fun p hp => Nat.lt_succ_of_lt (hpl p hp)⟩
    have hpl1 : ∀ p, some st.nextId = some p → p < st.nextId + 1 := by
      intro p hp
      cases hp
      exact Nat.lt_succ_self _
    have F2 := ihsubs hwf1 hpl1
    have h4labels : st4.labels = st2.labels := skeletonStep_labels _ svg st2
    have h4next : st4.nextId = st2.nextId := skeletonStep_nextId _ svg st2
    have h4skels : st4.skeletons = st2.skeletons
        ++ (if t = some skeletonType then
          [(st.nextId, substLabelPlaceholders svg
            ((childrenOf st2.labels st.nextId).map (fun ch => (ch.name, ch.id))))]
        else []) := skeletonStep_skeletons _ svg st2
    have hmono12 : st.nextId + 1 ≤ st2.nextId := F2.mono
    have hwf4 : labelsWF st4 := by
      intro r hr
      rw [h4labels] at hr
      rw [h4next]
      exact F2.wf r hr
    have hpl4 : ∀ p, pl = some p → p < st4.nextId := by
      intro p hp
      rw [h4next]
      exact lt_of_lt_of_le (hpl p hp) (le_trans (Nat.le_succ _) hmono12)
    have F4 := ihrest hwf4 hpl4
    have hunfold : create_labels g owner pl
        (LabelSpec.mk i n t c d svg a subs :: rest) colors st
      = create_labels g owner pl rest (colors ++ [color]) st4 := by
      rw [create_labels]
      rfl
    rw [hunfold]
    have hm4 : st2.nextId ≤ (create_labels g owner pl rest (colors ++ [color]) st4).nextId := by
      rw [← h4next]
      exact F4.mono
    have hlabT : (create_labels g owner pl rest (colors ++ [color]) st4).labels
        = st.labels ++ ([(⟨st.nextId, owner, n.getD "", t, color, pl⟩ : LabelRow)]
          ++ newRows { st with
              nextId := st.nextId + 1
              labels := st.labels ++ [⟨st.nextId, owner, n.getD "", t, color, pl⟩] } st2
          ++ newRows st4 (create_labels g owner pl rest (colors ++ [color]) st4)) := by
      rw [F4.labels_eq, h4labels, F2.labels_eq]
      simp [List.append_assoc]
    have hnewrows : newRows st (create_labels g owner pl rest (colors ++ [color]) st4)
        = [(⟨st.nextId, owner, n.getD "", t, color, pl⟩ : LabelRow)]
          ++ newRows { st with
              nextId := st.nextId + 1
              labels := st.labels ++ [⟨st.nextId, owner, n.getD "", t, color, pl⟩] } st2
          ++ newRows st4 (create_labels g owner pl rest (colors ++ [color]) st4) := by
      apply newRows_of_append
      rw [hlabT]
    have hskT : (create_labels g owner pl rest (colors ++ [color]) st4).skeletons
        = st.skeletons ++ (newSkels { st with
              nextId := st.nextId + 1
              labels := st.labels ++ [⟨st.nextId, owner, n.getD "", t, color, pl⟩] } st2
          ++ (if t = some skeletonType then
            [(st.nextId, substLabelPlaceholders svg
              ((childrenOf st2.labels st.nextId).map (fun ch => (ch.name, ch.id))))]
          else [])
          ++ newSkels st4 (create_labels g owner pl rest (colors ++ [color]) st4)) := by
      rw [F4.skels_eq, h4skels, F2.skels_eq]
      simp [List.append_assoc]
    have hnewskels : newSkels st (create_labels g owner pl rest (colors ++ [color]) st4)
        = newSkels { st with
              nextId := st.nextId + 1
              labels := st.labels ++ [⟨st.nextId, owner, n.getD "", t, color, pl⟩] } st2
          ++ (if t = some skeletonType then
            [(st.nextId, substLabelPlaceholders svg
              ((childrenOf st2.labels st.nextId).map (fun ch => (ch.name, ch.id))))]
          else [])
          ++ newSkels st4 (create_labels g owner pl rest (colors ++ [color]) st4) := by
      apply newSkels_of_append
      rw [hskT]
    have hstable : ∀ rid, st.nextId ≤ rid → rid < st2.nextId →
        childrenOf (create_labels g owner pl rest (colors ++ [color]) st4).labels rid
          = childrenOf st2.labels rid := by
      intro rid h1 h2
      have heq : (create_labels g owner pl rest (colors ++ [color]) st4).labels
          = st2.labels ++ newRows st4 (create_labels g owner pl rest (colors ++ [color]) st4) := by
        rw [F4.labels_eq, h4labels]
      rw [heq]
      apply childrenOf_stable
      intro r hr
      rcases F4.rows_parent r hr with hp | ⟨q, hq, hqb⟩
      · rw [hp]
        cases hplv : pl with
        | none => simp
        | some p =>
          intro he
          injection he with he'
          have := hpl p hplv
          omega
      · rw [hq]
        intro he
        injection he with he'
        rw [h4next] at hqb
        omega
    have hchild2 : childrenOf st2.labels st.nextId
        = (newRows { st with
            nextId := st.nextId + 1
            labels := st.labels ++ [⟨st.nextId, owner, n.getD "", t, color, pl⟩] } st2).filter
          (fun r => r.parentId == some st.nextId) := by
      have heq2 : st2.labels = (st.labels
          ++ [(⟨st.nextId, owner, n.getD "", t, color, pl⟩ : LabelRow)])
          ++ newRows { st with
            nextId := st.nextId + 1
            labels := st.labels ++ [⟨st.nextId, owner, n.getD "", t, color, pl⟩] } st2 :=
        F2.labels_eq
      rw [heq2, childrenOf_append]
      have hnil : childrenOf (st.labels
          ++ [(⟨st.nextId, owner, n.getD "", t, color, pl⟩ : LabelRow)]) st.nextId = [] := by
        apply childrenOf_eq_nil
        intro r hr
        rcases List.mem_append.mp hr with hold | hnew
        · intro he
          have := (hwf r hold).2 st.nextId he
          omega
        · rcases List.mem_singleton.mp hnew with rfl
          intro he
          have := hpl st.nextId he
          omega
      rw [hnil, List.nil_append]
      rfl
    refine ⟨?_, F4.wf, ?_, ?_, ?_, ?_, ?_, ?_, ?_⟩
    · omega
    · rw [hnewrows]
      exact hlabT
    · intro r hr
      rw [hnewrows] at hr
      rcases List.mem_append.mp hr with hr1 | hrT2
      · rcases List.mem_append.mp hr1 with hrR | hrT1
        · rcases List.mem_singleton.mp hrR with rfl
          exact le_refl _
        · have hb : st.nextId + 1 ≤ r.id := F2.rows_bound r hrT1
          omega
      · have := F4.rows_bound r hrT2
        rw [h4next] at this
        omega
    · intro r hr
      rw [hnewrows] at hr
      rcases List.mem_append.mp hr with hr1 | hrT2
      · rcases List.mem_append.mp hr1 with hrR | hrT1
        · rcases List.mem_singleton.mp hrR with rfl
          exact Or.inl rfl
        · rcases F2.rows_parent r hrT1 with hp | ⟨q, hq, hqb⟩
          · exact Or.inr ⟨st.nextId, hp, le_refl _⟩
          · have hqb' : st.nextId + 1 ≤ q := hqb
            exact Or.inr ⟨q, hq, by omega⟩
      · rcases F4.rows_parent r hrT2 with hp | ⟨q, hq, hqb⟩
        · exact Or.inl hp
        · rw [h4next] at hqb
          exact Or.inr ⟨q, hq, by omega⟩
    · rw [hnewrows, List.filter_append, List.filter_append,
        List.map_append, List.map_append]
      have hRkeep : ([(⟨st.nextId, owner, n.getD "", t, color, pl⟩ : LabelRow)].filter
          (fun r => r.parentId == pl)) = [⟨st.nextId, owner, n.getD "", t, color, pl⟩] := by
        simp [List.filter]
      have hT1nil : ((newRows { st with
          nextId := st.nextId + 1
          labels := st.labels ++ [⟨st.nextId, owner, n.getD "", t, color, pl⟩] } st2).filter
          (fun r => r.parentId == pl)) = [] := by
        apply List.filter_eq_nil_iff.mpr
        intro r hr
        simp only [beq_iff_eq]
        rcases F2.rows_parent r hr with hp | ⟨q, hq, hqb⟩
        · rw [hp]
          cases hplv : pl with
          | none => simp
          | some p =>
            intro he
            injection he with he'
            have he'' : st.nextId = p := he'
            have := hpl p hplv
            omega
        · rw [hq]
          cases hplv : pl with
          | none => simp
          | some p =>
            intro he
            injection he with he'
            have hqb' : st.nextId + 1 ≤ q := hqb
            have := hpl p hplv
            omega
      rw [hRkeep, hT1nil, F4.top_rows]
      simp [LabelSpec.name, LabelSpec.ltype]
    · rw [hnewskels]
      exact hskT
    · intro sk hsk
      rw [hnewskels] at hsk
      rcases List.mem_append.mp hsk with hsk1 | hskS2
      · rcases List.mem_append.mp hsk1 with hskS1 | hskSN
        · obtain ⟨spec, hmem, hsty, hb1, hb2, hsvg, hnames⟩ := F2.skels_spec sk hskS1
          have hb1' : st.nextId + 1 ≤ sk.1 := hb1
          have hb2' : sk.1 < st2.nextId := hb2
          have hst := hstable sk.1 (by omega) hb2'
          refine ⟨spec, ?_, hsty, by omega, by omega, ?_, ?_⟩
          · simp only [specNodes]
            exact List.mem_cons_of_mem _ (List.mem_append_left _ hmem)
          · rw [hst]
            exact hsvg
          · rw [hst]
            exact hnames
        · by_cases ht : t = some skeletonType
          · rw [if_pos ht] at hskSN
            rcases List.mem_singleton.mp hskSN with rfl
            have hst := hstable st.nextId (le_refl _) (by omega)
            refine ⟨LabelSpec.mk i n t c d svg a subs, ?_, ht, le_refl _, by omega, ?_, ?_⟩
            · simp [specNodes]
            · rw [hst]
              rfl
            · rw [hst, hchild2]
              have := F2.top_rows
              exact this
          · rw [if_neg ht] at hskSN
            exact absurd hskSN (List.not_mem_nil sk)
      · obtain ⟨spec, hmem, hsty, hb1, hb2, hsvg, hnames⟩ := F4.skels_spec sk hskS2
        rw [h4next] at hb1
        refine ⟨spec, ?_, hsty, by omega, hb2, hsvg, hnames⟩
        simp only [specNodes]
        exact List.mem_cons_of_mem _ (List.mem_append_right _ hmem)
    · intro r hr hty
      rw [hnewrows] at hr
      rcases List.mem_append.mp hr with hr1 | hrT2
      · rcases List.mem_append.mp hr1 with hrR | hrT1
        · rcases List.mem_singleton.mp hrR with rfl
          have ht : t = some skeletonType := hty
          refine ⟨substLabelPlaceholders svg
            ((childrenOf st2.labels st.nextId).map (fun ch => (ch.name, ch.id))), ?_⟩
          rw [hnewskels]
          apply List.mem_append_left
          apply List.mem_append_right
          rw [if_pos ht]
          exact List.mem_singleton.mpr rfl
        · obtain ⟨s, hs⟩ := F2.rows_skel r hrT1 hty
          refine ⟨s, ?_⟩
          rw [hnewskels]
          apply List.mem_append_left
          exact List.mem_append_left _ hs
      · obtain ⟨s, hs⟩ := F4.rows_skel r hrT2 hty
        refine ⟨s, ?_⟩
        rw [hnewskels]
        exact List.mem_append_right _ hs

end Labels
end CVAT

namespace CVAT
namespace Labels

/-- How the pre-existing label rows of a parent entity evolve during one
`update_labels` run: rows may be kept, modified in place (id and parent
foreign key preserved) or deleted, where modifications and deletions only
ever target rows whose id is below the bound `B` (the ids the input
specification may reference). -/
inductive OldEvolves (B : Nat) : List LabelRow → List LabelRow → Prop
  | nil : OldEvolves B [] []
  | keep (r : LabelRow) {l l' : List LabelRow} (h : OldEvolves B l l') :
      OldEvolves B (r :: l) (r :: l')
  | modify (r r' : LabelRow) {l l' : List LabelRow} (hid : r'.id = r.id)
      (hpar : r'.parentId = r.parentId) (hlt : r.id < B)
      (h : OldEvolves B l l') : OldEvolves B (r :: l) (r' :: l')
  | drop (r : LabelRow) {l l' : List LabelRow} (hlt : r.id < B)
      (h : OldEvolves B l l') : OldEvolves B (r :: l) l'

theorem oldEvolves_refl (B : Nat) (l : List LabelRow) : OldEvolves B l l := by
  induction l with
  | nil => exact .nil
  | cons r l ih => exact .keep r ih

theorem oldEvolves_trans {B : Nat} {a b c : List LabelRow}
    (h1 : OldEvolves B a b) (h2 : OldEvolves B b c) : OldEvolves B a c := by
  induction h1 generalizing c with
  | nil =>
    cases h2
    exact .nil
  | keep r h ih =>
    cases h2 with
    | keep _ h2t => exact .keep r (ih h2t)
    | modify _ r2 hid hpar hlt h2t => exact .modify r r2 hid hpar hlt (ih h2t)
    | drop _ hlt h2t => exact .drop r hlt (ih h2t)
  | modify r r1 hid hpar hlt h ih =>
    cases h2 with
    | keep _ h2t => exact .modify r r1 hid hpar hlt (ih h2t)
    | modify _ r2 hid2 hpar2 hlt2 h2t =>
      exact .modify r r2 (hid2.trans hid) (hpar2.trans hpar) hlt (ih h2t)
    | drop _ hlt2 h2t => exact .drop r hlt (ih h2t)
  | drop r hlt h ih => exact .drop r hlt (ih h2)

theorem oldEvolves_mem {B : Nat} {l l' : List LabelRow}
    (h : OldEvolves B l l') :
    ∀ r' ∈ l', ∃ r ∈ l, r'.id = r.id ∧ r'.parentId = r.parentId := by
  induction h with
  | nil =>
    intro r' hr'
    exact absurd hr' (List.not_mem_nil r')
  | keep r h ih =>
    intro r' hr'
    rcases List.mem_cons.mp hr' with rfl | hmem
    · exact ⟨r', List.mem_cons_self _ _, rfl, rfl⟩
    · obtain ⟨r0, hr0, he⟩ := ih r' hmem
      exact ⟨r0, List.mem_cons_of_mem _ hr0, he⟩
  | modify r r1 hid hpar hlt h ih =>
    intro r' hr'
    rcases List.mem_cons.mp hr' with rfl | hmem
    · exact ⟨r, List.mem_cons_self _ _, hid, hpar⟩
    · obtain ⟨r0, hr0, he⟩ := ih r' hmem
      exact ⟨r0, List.mem_cons_of_mem _ hr0, he⟩
  | drop r hlt h ih =>
    intro r' hr'
    obtain ⟨r0, hr0, he⟩ := ih r' hr'
    exact ⟨r0, List.mem_cons_of_mem _ hr0, he⟩

theorem oldEvolves_parents {B : Nat} {l l' : List LabelRow}
    (h : OldEvolves B l l')
    (hold : ∀ r ∈ l, r.id < B → ∀ p, r.parentId = some p → p < B) :
    ∀ r' ∈ l', r'.id < B → ∀ p, r'.parentId = some p → p < B := by
  intro r' hr' hlt p hp
  obtain ⟨r0, hr0, hid, hpar⟩ := oldEvolves_mem h r' hr'
  exact hold r0 hr0 (by rw [← hid]; exact hlt) p (by rw [← hpar]; exact hp)

theorem parent_beq_false {r : LabelRow} {B rid : Nat} (hB : B ≤ rid)
    (hparB : ∀ p, r.parentId = some p → p < B) :
    (r.parentId == some rid) = false := by
  cases hpv : r.parentId with
  | none => rfl
  | some p =>
    have := hparB p hpv
    simp only [beq_eq_false_iff_ne, ne_eq, Option.some.injEq]
    omega

theorem oldEvolves_children {B : Nat} {l l' : List LabelRow}
    (h : OldEvolves B l l') (rid : Nat) (hB : B ≤ rid) :
    (∀ r ∈ l, r.id < B → ∀ p, r.parentId = some p → p < B) →
    childrenOf l' rid = childrenOf l rid := by
  induction h with
  | nil =>
    intro _
    rfl
  | keep r h ih =>
    intro hold
    have ihh := ih (fun r0 hr0 => hold r0 (List.mem_cons_of_mem _ hr0))
    simp only [childrenOf] at ihh ⊢
    simp only [List.filter_cons, ihh]
  | modify r r1 hid hpar hlt h ih =>
    intro hold
    have ihh := ih (fun r0 hr0 => hold r0 (List.mem_cons_of_mem _ hr0))
    have hne : (r.parentId == some rid) = false :=
      parent_beq_false hB (hold r (List.mem_cons_self _ _) hlt)
    have hne1 : (r1.parentId == some rid) = false := by
      rw [hpar]
      exact hne
    simp only [childrenOf] at ihh ⊢
    simp only [List.filter_cons, hne, hne1, Bool.false_eq_true, if_false]
    exact ihh
  | drop r hlt h ih =>
    intro hold
    have ihh := ih (fun r0 hr0 => hold r0 (List.mem_cons_of_mem _ hr0))
    have hne : (r.parentId == some rid) = false :=
      parent_beq_false hB (hold r (List.mem_cons_self _ _) hlt)
    simp only [childrenOf] at ihh ⊢
    simp only [List.filter_cons, hne, Bool.false_eq_true, if_false]
    exact ihh

theorem oldEvolves_ids_sublist {B : Nat} {l l' : List LabelRow}
    (h : OldEvolves B l l') :
    (l'.map (fun r => r.id)).Sublist (l.map (fun r => r.id)) := by
  induction h with
  | nil => exact List.Sublist.refl _
  | keep r h ih =>
    simp only [List.map_cons]
    exact List.Sublist.cons₂ _ ih
  | modify r r1 hid hpar hlt h ih =>
    simp only [List.map_cons, hid]
    exact List.Sublist.cons₂ _ ih
  | drop r hlt h ih =>
    simp only [List.map_cons]
    exact List.Sublist.cons _ ih

theorem oldEvolves_ge_fixed {B : Nat} {l l' : List LabelRow}
    (h : OldEvolves B l l') (hge : ∀ r ∈ l, B ≤ r.id) : l' = l := by
  induction h with
  | nil => rfl
  | keep r h ih => rw [ih (fun r0 hr0 => hge r0 (List.mem_cons_of_mem _ hr0))]
  | modify r r1 hid hpar hlt h ih =>
    have := hge r (List.mem_cons_self _ _)
    exact absurd hlt (by omega)
  | drop r hlt h ih =>
    have := hge r (List.mem_cons_self _ _)
    exact absurd hlt (by omega)

theorem oldEvolves_decompose {B : Nat} : ∀ {a b c : List LabelRow},
    OldEvolves B (a ++ b) c → (∀ r ∈ b, B ≤ r.id) →
    ∃ a', OldEvolves B a a' ∧ c = a' ++ b := by
  intro a
  induction a with
  | nil =>
    intro b c h hge
    exact ⟨[], .nil, oldEvolves_ge_fixed h hge⟩
  | cons r a ih =>
    intro b c h hge
    cases h with
    | keep _ ht =>
      obtain ⟨a', he, rfl⟩ := ih ht hge
      exact ⟨r :: a', .keep r he, rfl⟩
    | modify _ r1 hid hpar hlt ht =>
      obtain ⟨a', he, rfl⟩ := ih ht hge
      exact ⟨r1 :: a', .modify r r1 hid hpar hlt he, rfl⟩
    | drop _ hlt ht =>
      obtain ⟨a', he, rfl⟩ := ih ht hge
      exact ⟨a', .drop r hlt he, rfl⟩

theorem oldEvolves_map_of {B : Nat} (l : List LabelRow) (j : Nat) (db : LabelRow)
    (hj : j < B) (hdb : db.id = j)
    (hpar : ∀ r ∈ l, r.id = j → db.parentId = r.parentId) :
    OldEvolves B l (l.map (fun r => if r.id = j then db else r)) := by
  induction l with
  | nil => exact .nil
  | cons r l ih =>
    simp only [List.map_cons]
    by_cases h : r.id = j
    · rw [if_pos h]
      exact .modify r db (by rw [hdb, h]) (hpar r (List.mem_cons_self _ _) h)
        (by rw [h]; exact hj)
        (ih (fun r0 hr0 hid => hpar r0 (List.mem_cons_of_mem _ hr0) hid))
    · rw [if_neg h]
      exact .keep r (ih (fun r0 hr0 hid => hpar r0 (List.mem_cons_of_mem _ hr0) hid))

theorem oldEvolves_filter_of {B : Nat} (l : List LabelRow) (j : Nat) (hj : j < B) :
    OldEvolves B l (l.filter (fun r => r.id != j)) := by
  induction l with
  | nil => exact .nil
  | cons r l ih =>
    rw [List.filter_cons]
    by_cases h : r.id = j
    · have hc : (r.id != j) = false := by simp [h]
      rw [hc]
      simp only [Bool.false_eq_true, if_false]
      exact .drop r (by rw [h]; exact hj) ih
    · have hc : (r.id != j) = true := by simp [h]
      rw [hc]
      simp only [if_true]
      exact .keep r ih

theorem stable_of_evolve {B N : Nat} {pl : Option Nat}
    {stL stL' olds2 news : List LabelRow}
    (hev : OldEvolves B stL olds2) (heq : stL' = olds2 ++ news)
    (hnews : ∀ r ∈ news, N ≤ r.id ∧ (r.parentId = pl
      ∨ (∃ q, r.parentId = some q ∧ N ≤ q)
      ∨ (∃ q, r.parentId = some q ∧ q < B)))
    (hold : ∀ r ∈ stL, r.id < B → ∀ p, r.parentId = some p → p < B)
    (rid : Nat) (h1 : B ≤ rid) (h2 : rid < N) (h3 : pl ≠ some rid) :
    childrenOf stL' rid = childrenOf stL rid := by
  subst heq
  have hnil : childrenOf news rid = [] := by
    apply childrenOf_eq_nil
    intro r hr
    obtain ⟨hN, hdisj⟩ := hnews r hr
    rcases hdisj with hp | ⟨q, hq, hqb⟩ | ⟨q, hq, hqb⟩
    · rw [hp]
      exact h3
    · rw [hq]
      intro he
      injection he with he2
      omega
    · rw [hq]
      intro he
      injection he with he2
      omega
  rw [childrenOf_append, hnil, List.append_nil]
  exact oldEvolves_children hev rid h1 hold

theorem map_replace_fresh (st : DbState) (hwf : labelsWF st) (db : LabelRow) :
    st.labels.map (fun r => if r.id = st.nextId then db else r) = st.labels := by
  have hp : ∀ r ∈ st.labels, (if r.id = st.nextId then db else r) = id r := by
    intro r hr
    have := (hwf r hr).1
    simp only [id]
    rw [if_neg (by omega)]
  rw [List.map_congr_left hp, List.map_id]

theorem update_label_create_inv (g : String → List String → String)
    (owner : Nat) (pl : Option Nat) (n t c : Option String) (svg : String)
    (att : List String) (subs : List LabelSpec) (st : DbState)
    (dbOpt : Option LabelRow) (st1 : DbState) (hwf : labelsWF st)
    (h : update_label g owner pl (.mk none n t c false svg att subs) st
      = .ok (dbOpt, st1)) :
    ∃ db : LabelRow, dbOpt = some db ∧ db.id = st.nextId ∧ db.owner = owner ∧
      db.name = n.getD "" ∧ db.ltype = t ∧ db.parentId = pl ∧
      st1.nextId = st.nextId + 1 ∧ st1.skeletons = st.skeletons ∧
      st1.labels = st.labels ++ [db] := by
  simp only [update_label, LabelSpec.id, LabelSpec.deleted, LabelSpec.name,
    LabelSpec.ltype, LabelSpec.color, LabelSpec.attributes, labelCreate,
    Bool.false_eq_true, if_false, List.any_append, List.any_cons, List.any_nil,
    beq_self_eq_true, Bool.or_true, Bool.or_false, if_true,
    Except.ok.injEq, Prod.mk.injEq] at h
  obtain ⟨h1, h2⟩ := h
  subst h1
  subst h2
  refine ⟨_, rfl, rfl, rfl, rfl, rfl, rfl, rfl, rfl, ?_⟩
  simp only [List.map_append, List.map_cons, List.map_nil]
  rw [map_replace_fresh st hwf, if_pos trivial]

theorem update_label_fetch_inv (g : String → List String → String)
    (owner : Nat) (pl : Option Nat) (k : Nat) (n t c : Option String)
    (svg : String) (att : List String) (subs : List LabelSpec) (st : DbState)
    (dbOpt : Option LabelRow) (st1 : DbState)
    (h : update_label g owner pl (.mk (some k) n t c false svg att subs) st
      = .ok (dbOpt, st1)) :
    ∃ db db0 : LabelRow, dbOpt = some db ∧
      st.labels.find? (fun r => r.id == k && r.owner == owner) = some db0 ∧
      db.id = k ∧ db.parentId = db0.parentId ∧
      st1.nextId = st.nextId ∧ st1.skeletons = st.skeletons ∧
      st1.labels = st.labels.map (fun r => if r.id = k then db else r) := by
  cases hfind : st.labels.find? (fun r => r.id == k && r.owner == owner) with
  | none =>
    simp only [update_label, LabelSpec.id, LabelSpec.deleted, hfind] at h
    exact Except.noConfusion h
  | some db0 =>
    have hmem := List.mem_of_find?_eq_some hfind
    have hpred := List.find?_some hfind
    have hid0 : db0.id = k := by
      have := (Bool.and_eq_true _ _ |>.mp hpred).1
      simpa using this
    have hany : st.labels.any (fun r => r.id == db0.id) = true :=
      List.any_eq_true.mpr ⟨db0, hmem, by simp⟩
    by_cases hG : db0.ltype = some skeletonType
      ∨ pyOrOpt t db0.ltype = some skeletonType
    · simp only [update_label, LabelSpec.id, LabelSpec.deleted, LabelSpec.name,
        LabelSpec.ltype, LabelSpec.color, LabelSpec.attributes, hfind, hG,
        if_true, Bool.false_eq_true, if_false, hany,
        Except.ok.injEq, Prod.mk.injEq] at h
      obtain ⟨h1, h2⟩ := h
      subst h1
      subst h2
      refine ⟨_, db0, rfl, rfl, hid0, rfl, rfl, rfl, ?_⟩
      rw [hid0]
    · simp only [update_label, LabelSpec.id, LabelSpec.deleted, LabelSpec.name,
        LabelSpec.ltype, LabelSpec.color, LabelSpec.attributes, hfind, hG,
        if_false, Bool.false_eq_true, hany, if_true,
        Except.ok.injEq, Prod.mk.injEq] at h
      obtain ⟨h1, h2⟩ := h
      subst h1
      subst h2
      refine ⟨_, db0, rfl, rfl, hid0, rfl, rfl, rfl, ?_⟩
      rw [hid0]

theorem update_label_delete_inv (g : String → List String → String)
    (owner : Nat) (pl : Option Nat) (i : Option Nat) (n t c : Option String)
    (svg : String) (att : List String) (subs : List LabelSpec) (st : DbState)
    (dbOpt : Option LabelRow) (st1 : DbState)
    (h : update_label g owner pl (.mk i n t c true svg att subs) st
      = .ok (dbOpt, st1)) :
    ∃ (kk : Nat) (db0 : LabelRow), i = some kk ∧
      st.labels.find? (fun r => r.id == kk && r.owner == owner) = some db0 ∧
      db0.id = kk ∧ dbOpt = none ∧
      st1.nextId = st.nextId ∧ st1.skeletons = st.skeletons ∧
      st1.labels = st.labels.filter (fun r => r.id != kk) := by
  cases i with
  | none =>
    simp only [update_label, LabelSpec.id, LabelSpec.deleted, LabelSpec.name,
      LabelSpec.ltype, labelCreate, if_true] at h
    exact Except.noConfusion h
  | some k =>
    cases hfind : st.labels.find? (fun r => r.id == k && r.owner == owner) with
    | none =>
      simp only [update_label, LabelSpec.id, LabelSpec.deleted, hfind] at h
      exact Except.noConfusion h
    | some db0 =>
      have hpred := List.find?_some hfind
      have hid0 : db0.id = k := by
        have := (Bool.and_eq_true _ _ |>.mp hpred).1
        simpa using this
      cases k with
      | zero =>
        simp only [update_label, LabelSpec.id, LabelSpec.deleted, hfind,
          if_true] at h
        exact Except.noConfusion h
      | succ m =>
        by_cases hG : db0.ltype = some skeletonType
          ∨ pyOrOpt t db0.ltype = some skeletonType
        · simp only [update_label, LabelSpec.id, LabelSpec.deleted,
            LabelSpec.name, LabelSpec.ltype, hfind, hG, if_true,
            Except.ok.injEq, Prod.mk.injEq] at h
          obtain ⟨h1, h2⟩ := h
          subst h1
          subst h2
          refine ⟨m + 1, db0, rfl, hfind, hid0, rfl, rfl, rfl, ?_⟩
          rw [hid0]
        · simp only [update_label, LabelSpec.id, LabelSpec.deleted,
            LabelSpec.name, LabelSpec.ltype, hfind, hG, if_false, if_true,
            Except.ok.injEq, Prod.mk.injEq] at h
          obtain ⟨h1, h2⟩ := h
          subst h1
          subst h2
          refine ⟨m + 1, db0, rfl, hfind, hid0, rfl, rfl, rfl, ?_⟩
          rw [hid0]

/-- The facts one successful `update_labels` run establishes when every label
id mentioned in the input references a pre-existing row (ids below `B`): ids
only grow, the invariants are kept; the pre-existing rows evolve by in-place
modifications and deletions of referenced rows only while created rows are
appended, each fresh and attached to the call's parent label, to a fresh row
or to a referenced old row; skeleton rows are appended, one for every created
row of skeleton type, and every appended skeleton row stems from an input
node given without an id and of type skeleton and carries that node's svg
with every `data-label-name` placeholder of a DB sublabel replaced by its
`data-label-id`. -/
structure UpdateFacts (B owner : Nat) (pl : Option Nat)
    (specs : List LabelSpec) (st st' : DbState) : Prop where
  mono : st.nextId ≤ st'.nextId
  wf : labelsWF st'
  nodup : (st'.labels.map (fun r => r.id)).Nodup
  oldpar : ∀ r ∈ st'.labels, r.id < B → ∀ p, r.parentId = some p → p < B
  evolve : ∃ olds2 news, OldEvolves B st.labels olds2 ∧
    st'.labels = olds2 ++ news ∧
    ∀ r ∈ news, st.nextId ≤ r.id ∧
      (r.parentId = pl ∨ (∃ q, r.parentId = some q ∧ st.nextId ≤ q)
        ∨ (∃ q, r.parentId = some q ∧ q < B)) ∧
      (r.ltype = some skeletonType → ∃ s, (r.id, s) ∈ newSkels st st')
  skels_eq : st'.skeletons = st.skeletons ++ newSkels st st'
  skels_spec : ∀ sk ∈ newSkels st st', ∃ spec ∈ specNodes specs,
    spec.id = none ∧ spec.ltype = some skeletonType ∧
    st.nextId ≤ sk.1 ∧ sk.1 < st'.nextId ∧
    sk.2 = substLabelPlaceholders spec.svg
      ((childrenOf st'.labels sk.1).map (fun ch => (ch.name, ch.id)))

theorem update_labels_facts (g : String → List String → String) (owner : Nat) :
    ∀ (pl : Option Nat) (specs : List LabelSpec) (st : DbState) (B : Nat)
      (st' : DbState),
    labelsWF st → (st.labels.map (fun r => r.id)).Nodup →
    (∀ r ∈ st.labels, r.id < B → ∀ p, r.parentId = some p → p < B) →
    B ≤ st.nextId →
    (∀ nd ∈ specNodes specs, ∀ j, nd.id = some j → j < B) →
    (∀ p, pl = some p → p < st.nextId) →
    update_labels g owner pl specs st = .ok st' →
    UpdateFacts B owner pl specs st st' := by
  intro pl specs st
  induction pl, specs, st using update_labels.induct g owner with
  | case1 pl st =>
    intro B st' hwf hnd hold hB hids hpl hok
    rw [update_labels] at hok
    cases hok
    refine ⟨le_refl _, hwf, hnd, hold,
      ⟨st.labels, [], oldEvolves_refl B st.labels, (List.append_nil _).symm,
        fun r hr => absurd hr (List.not_mem_nil r)⟩, ?_, ?_⟩
    · rw [newSkels_self, List.append_nil]
    · intro sk hsk
      rw [newSkels_self] at hsk
      exact absurd hsk (List.not_mem_nil sk)
  | case2 pl st i n t c d svg a subs rest e herr =>
    intro B st' hwf hnd hold hB hids hpl hok
    rw [update_labels, herr] at hok
    exact Except.noConfusion hok
  | case3 pl st i n t c svg a subs rest dbOpt st1 hokU ih =>
    intro B st' hwf hnd hold hB hids hpl hok
    rw [update_labels, hokU] at hok
    simp only [if_true] at hok
    obtain ⟨kk, db0, hik, hfind, hid0, hdbno, hn1, hsk1, hlab1⟩ :=
      update_label_delete_inv g owner pl i n t c svg a subs st dbOpt st1 hokU
    have hkB : kk < B := hids (.mk i n t c true svg a subs)
      (by rw [specNodes]; exact List.mem_cons_self _ _) kk hik
    have hwf1 : labelsWF st1 := by
      intro r hr
      rw [hlab1] at hr
      rw [hn1]
      exact hwf r (List.mem_of_mem_filter hr)
    have hnd1 : (st1.labels.map (fun r => r.id)).Nodup := by
      rw [hlab1]
      exact hnd.sublist (List.Sublist.map _ (List.filter_sublist _))
    have hold1 : ∀ r ∈ st1.labels, r.id < B → ∀ p, r.parentId = some p → p < B := by
      intro r hr
      rw [hlab1] at hr
      exact hold r (List.mem_of_mem_filter hr)
    have hB1 : B ≤ st1.nextId := by omega
    have hidsR : ∀ nd ∈ specNodes rest, ∀ j, nd.id = some j → j < B := by
      intro nd hnd2 j hj
      refine hids nd ?_ j hj
      rw [specNodes]
      exact List.mem_cons_of_mem _ (List.mem_append_right _ hnd2)
    have hpl1 : ∀ p, pl = some p → p < st1.nextId := by
      intro p hp
      have := hpl p hp
      omega
    have F := ih B st' hwf1 hnd1 hold1 hB1 hidsR hpl1 hok
    have hnsk : newSkels st1 st' = newSkels st st' := by
      simp only [newSkels]
      rw [hsk1]
    have hm := F.mono
    refine ⟨by omega, F.wf, F.nodup, F.oldpar, ?_, ?_, ?_⟩
    · obtain ⟨olds2, news, hev, heq, hnews⟩ := F.evolve
      refine ⟨olds2, news, ?_, heq, ?_⟩
      · refine oldEvolves_trans ?_ hev
        rw [hlab1]
        exact oldEvolves_filter_of st.labels kk hkB
      · intro r hr
        obtain ⟨hN, hdisj, hskel⟩ := hnews r hr
        refine ⟨by omega, ?_, ?_⟩
        · rcases hdisj with hp | ⟨q, hq, hqb⟩ | h3d
          · exact Or.inl hp
          · exact Or.inr (Or.inl ⟨q, hq, by omega⟩)
          · exact Or.inr (Or.inr h3d)
        · intro hty
          obtain ⟨s, hs⟩ := hskel hty
          rw [hnsk] at hs
          exact ⟨s, hs⟩
    · rw [F.skels_eq, hsk1, hnsk]
    · intro sk hsk
      rw [← hnsk] at hsk
      obtain ⟨spec, hmem, hsid, hsty, hb1, hb2, hsvg⟩ := F.skels_spec sk hsk
      refine ⟨spec, ?_, hsid, hsty, by omega, hb2, hsvg⟩
      rw [specNodes]
      exact List.mem_cons_of_mem _ (List.mem_append_right _ hmem)
  | case4 pl st i n t c d svg a subs rest dbOpt st1 hokU hdne e hsubE ih =>
    intro B st' hwf hnd hold hB hids hpl hok
    have hd : d = false := by
      cases d
      · rfl
      · exact absurd rfl hdne
    rw [update_labels, hokU, hd] at hok
    simp only [Bool.false_eq_true, if_false, hsubE] at hok
    exact Except.noConfusion hok
  | case5 pl st i n t c d svg a subs rest dbOpt st1 hokU hdne st2 hsub ih1 ih2 =>
    intro B st' hwf hnd hold hB hids hpl hok
    have hd : d = false := by
      cases d
      · rfl
      · exact absurd rfl hdne
    subst hd
    rw [update_labels, hokU] at hok
    simp only [Bool.false_eq_true, if_false, hsub] at hok
    have hidsS : ∀ nd ∈ specNodes subs, ∀ j, nd.id = some j → j < B := by
      intro nd hnd2 j hj
      refine hids nd ?_ j hj
      rw [specNodes]
      exact List.mem_cons_of_mem _ (List.mem_append_left _ hnd2)
    have hidsR : ∀ nd ∈ specNodes rest, ∀ j, nd.id = some j → j < B := by
      intro nd hnd2 j hj
      refine hids nd ?_ j hj
      rw [specNodes]
      exact List.mem_cons_of_mem _ (List.mem_append_right _ hnd2)
    cases i with
    | none =>
      obtain ⟨db, hdb, hdbid, hdbown, hdbname, hdbtype, hdbpar, hn1, hsk1, hlab1⟩ :=
        update_label_create_inv g owner pl n t c svg a subs st dbOpt st1 hwf hokU
      subst hdb
      have hwf1 : labelsWF st1 := by
        intro r hr
        rw [hlab1] at hr
        rw [hn1]
        rcases List.mem_append.mp hr with hrold | hrnew
        · obtain ⟨b1, b2⟩ := hwf r hrold
          exact ⟨by omega, fun p hp => by have := b2 p hp; omega⟩
        · rcases List.mem_singleton.mp hrnew with rfl
          refine ⟨by omega, ?_⟩
          intro p hp
          rw [hdbpar] at hp
          have := hpl p hp
          omega
      have hnd1 : (st1.labels.map (fun r => r.id)).Nodup := by
        rw [hlab1, List.map_append]
        simp only [List.map_cons, List.map_nil]
        rw [List.nodup_append]
        refine ⟨hnd, by simp, ?_⟩
        intro x hx hx2
        obtain ⟨r, hr, rfl⟩ := List.mem_map.mp hx
        rw [List.mem_singleton] at hx2
        have := (hwf r hr).1
        omega
      have hold1 : ∀ r ∈ st1.labels, r.id < B → ∀ p, r.parentId = some p → p < B := by
        intro r hr hrB p hp
        rw [hlab1] at hr
        rcases List.mem_append.mp hr with hrold | hrnew
        · exact hold r hrold hrB p hp
        · rcases List.mem_singleton.mp hrnew with rfl
          exact absurd hrB (by omega)
      have hB1 : B ≤ st1.nextId := by omega
      have hpl1 : ∀ p, (some db).map (fun r => r.id) = some p → p < st1.nextId := by
        intro p hp
        have hp2 : some db.id = some p := hp
        injection hp2 with hp3
        omega
      have F1 : UpdateFacts B owner (some db.id) subs st1 st2 :=
        ih1 B st2 hwf1 hnd1 hold1 hB1 hidsS hpl1 hsub
      have h3 : maybeSkeletonStep none (some db) svg st2 = skeletonStep db svg st2 := rfl
      rw [h3] at hok
      have hsklab3 : (skeletonStep db svg st2).labels = st2.labels :=
        skeletonStep_labels db svg st2
      have hskn3 : (skeletonStep db svg st2).nextId = st2.nextId :=
        skeletonStep_nextId db svg st2
      have hsks3 : (skeletonStep db svg st2).skeletons = st2.skeletons
          ++ (if db.ltype = some skeletonType then
            [(db.id, substLabelPlaceholders svg
              ((childrenOf st2.labels db.id).map (fun ch => (ch.name, ch.id))))]
          else []) := skeletonStep_skeletons db svg st2
      have hm1 := F1.mono
      have hwf3 : labelsWF (skeletonStep db svg st2) := by
        intro r hr
        rw [hsklab3] at hr
        rw [hskn3]
        exact F1.wf r hr
      have hnd3 : ((skeletonStep db svg st2).labels.map (fun r => r.id)).Nodup := by
        rw [hsklab3]
        exact F1.nodup
      have hold3 : ∀ r ∈ (skeletonStep db svg st2).labels,
          r.id < B → ∀ p, r.parentId = some p → p < B := by
        rw [hsklab3]
        exact F1.oldpar
      have hB3 : B ≤ (skeletonStep db svg st2).nextId := by
        rw [hskn3]
        omega
      have hpl3 : ∀ p, pl = some p → p < (skeletonStep db svg st2).nextId := by
        intro p hp
        rw [hskn3]
        have := hpl p hp
        omega
      have F2 : UpdateFacts B owner pl rest (skeletonStep db svg st2) st' :=
        ih2 B st' hwf3 hnd3 hold3 hB3 hidsR hpl3 hok
      have hm2 : (skeletonStep db svg st2).nextId ≤ st'.nextId := F2.mono
      rw [hskn3] at hm2
      have hskT : st'.skeletons = st.skeletons ++ (newSkels st1 st2
          ++ (if db.ltype = some skeletonType then
            [(db.id, substLabelPlaceholders svg
              ((childrenOf st2.labels db.id).map (fun ch => (ch.name, ch.id))))]
          else [])
          ++ newSkels (skeletonStep db svg st2) st') := by
        rw [F2.skels_eq, hsks3, F1.skels_eq, hsk1]
        simp [List.append_assoc]
      have hNS := newSkels_of_append st st' _ hskT
      obtain ⟨oldsA, newsA, hevA, heqA, hnewsA⟩ := F1.evolve
      obtain ⟨oldsB, newsB, hevB, heqB, hnewsB⟩ := F2.evolve
      have hevB0 : OldEvolves B st2.labels oldsB := by
        rw [← hsklab3]
        exact hevB
      have hstab : ∀ rid, st.nextId ≤ rid → rid < st2.nextId →
          childrenOf st'.labels rid = childrenOf st2.labels rid := by
        intro rid h1 h2
        have hs := stable_of_evolve hevB heqB
          (fun r hr => ⟨(hnewsB r hr).1, (hnewsB r hr).2.1⟩)
          hold3 rid (by omega) (by rw [hskn3]; omega)
          (fun he => absurd (hpl rid he) (by omega))
        rw [hsklab3] at hs
        exact hs
      rw [hlab1] at hevA
      obtain ⟨a1, hev1, ha1⟩ := oldEvolves_decompose hevA (by
        intro r hr
        rcases List.mem_singleton.mp hr with rfl
        omega)
      have hevBd : OldEvolves B (a1 ++ ([db] ++ newsA)) oldsB := by
        rw [← List.append_assoc, ← ha1, ← heqA]
        exact hevB0
      obtain ⟨a2, hev2, ha2⟩ := oldEvolves_decompose hevBd (by
        intro r hr
        rcases List.mem_append.mp hr with hrD | hrA
        · rcases List.mem_singleton.mp hrD with rfl
          omega
        · have := (hnewsA r hrA).1
          omega)
      refine ⟨by omega, F2.wf, F2.nodup, F2.oldpar, ?_, ?_, ?_⟩
      · refine ⟨a2, [db] ++ newsA ++ newsB, oldEvolves_trans hev1 hev2, ?_, ?_⟩
        · rw [heqB, ha2]
          simp [List.append_assoc]
        · intro r hr
          rcases List.mem_append.mp hr with hr1 | hrB2
          · rcases List.mem_append.mp hr1 with hrD | hrA
            · have hrd : r = db := List.mem_singleton.mp hrD
              subst hrd
              refine ⟨by omega, Or.inl hdbpar, ?_⟩
              intro hty
              refine ⟨substLabelPlaceholders svg
                ((childrenOf st2.labels r.id).map (fun ch => (ch.name, ch.id))), ?_⟩
              rw [hNS]
              apply List.mem_append_left
              apply List.mem_append_right
              rw [if_pos hty]
              exact List.mem_singleton.mpr rfl
            · obtain ⟨hN, hdisj, hskel⟩ := hnewsA r hrA
              refine ⟨by omega, ?_, ?_⟩
              · rcases hdisj with hp | ⟨q, hq, hqb⟩ | ⟨q, hq, hqb⟩
                · refine Or.inr (Or.inl ⟨db.id, hp, by omega⟩)
                · exact Or.inr (Or.inl ⟨q, hq, by omega⟩)
                · exact Or.inr (Or.inr ⟨q, hq, hqb⟩)
              · intro hty
                obtain ⟨s, hs⟩ := hskel hty
                refine ⟨s, ?_⟩
                rw [hNS]
                exact List.mem_append_left _ (List.mem_append_left _ hs)
          · obtain ⟨hN, hdisj, hskel⟩ := hnewsB r hrB2
            rw [hskn3] at hN
            refine ⟨by omega, ?_, ?_⟩
            · rcases hdisj with hp | ⟨q, hq, hqb⟩ | h3d
              · exact Or.inl hp
              · rw [hskn3] at hqb
                exact Or.inr (Or.inl ⟨q, hq, by omega⟩)
              · exact Or.inr (Or.inr h3d)
            · intro hty
              obtain ⟨s, hs⟩ := hskel hty
              refine ⟨s, ?_⟩
              rw [hNS]
              exact List.mem_append_right _ hs
      · rw [hNS]
        exact hskT
      · intro sk hsk
        rw [hNS] at hsk
        rcases List.mem_append.mp hsk with hsk1' | hskC
        · rcases List.mem_append.mp hsk1' with hskA | hskH
          · obtain ⟨spec, hmem, hsid, hsty, hb1, hb2, hsvg⟩ := F1.skels_spec sk hskA
            refine ⟨spec, ?_, hsid, hsty, by omega, by omega, ?_⟩
            · rw [specNodes]
              exact List.mem_cons_of_mem _ (List.mem_append_left _ hmem)
            · rw [hstab sk.1 (by omega) hb2]
              exact hsvg
          · by_cases hT : db.ltype = some skeletonType
            · rw [if_pos hT] at hskH
              rcases List.mem_singleton.mp hskH with rfl
              refine ⟨.mk none n t c false svg a subs, ?_, rfl, ?_, ?_, ?_, ?_⟩
              · rw [specNodes]
                exact List.mem_cons_self _ _
              · show t = some skeletonType
                rw [← hdbtype]
                exact hT
              · show st.nextId ≤ db.id
                omega
              · show db.id < st'.nextId
                omega
              · show substLabelPlaceholders svg
                    ((childrenOf st2.labels db.id).map (fun ch => (ch.name, ch.id)))
                  = substLabelPlaceholders svg
                    ((childrenOf st'.labels db.id).map (fun ch => (ch.name, ch.id)))
                rw [hstab db.id (by omega) (by omega)]
            · rw [if_neg hT] at hskH
              exact absurd hskH (List.not_mem_nil sk)
        · obtain ⟨spec, hmem, hsid, hsty, hb1, hb2, hsvg⟩ := F2.skels_spec sk hskC
          rw [hskn3] at hb1
          refine ⟨spec, ?_, hsid, hsty, by omega, hb2, hsvg⟩
          rw [specNodes]
          exact List.mem_cons_of_mem _ (List.mem_append_right _ hmem)
    | some k =>
      obtain ⟨db, db0, hdb, hfind, hdbid, hdbpar, hn1, hsk1, hlab1⟩ :=
        update_label_fetch_inv g owner pl k n t c svg a subs st dbOpt st1 hokU
      subst hdb
      have hmem0 : db0 ∈ st.labels := List.mem_of_find?_eq_some hfind
      have hpred0 := List.find?_some hfind
      have hid0 : db0.id = k := by
        have h := (Bool.and_eq_true _ _ |>.mp hpred0).1
        simpa using h
      have hkB : k < B := hids (.mk (some k) n t c false svg a subs)
        (by rw [specNodes]; exact List.mem_cons_self _ _) k rfl
      have hparfact : ∀ r ∈ st.labels, r.id = k → db.parentId = r.parentId := by
        intro r hr hrk
        have hr0 : r = db0 := List.inj_on_of_nodup_map hnd hr hmem0 (by rw [hrk, hid0])
        rw [hr0, hdbpar]
      have hevHead : OldEvolves B st.labels st1.labels := by
        rw [hlab1]
        exact oldEvolves_map_of st.labels k db hkB hdbid hparfact
      have hwf1 : labelsWF st1 := by
        intro r hr
        rw [hlab1] at hr
        rw [hn1]
        obtain ⟨r0, hr0, rfl⟩ := List.mem_map.mp hr
        by_cases hc : r0.id = k
        · rw [if_pos hc]
          refine ⟨by have := (hwf db0 hmem0).1; omega, ?_⟩
          intro p hp
          rw [hdbpar] at hp
          exact (hwf db0 hmem0).2 p hp
        · rw [if_neg hc]
          exact hwf r0 hr0
      have hnd1 : (st1.labels.map (fun r => r.id)).Nodup := by
        have hids_eq : st1.labels.map (fun r => r.id) = st.labels.map (fun r => r.id) := by
          rw [hlab1, List.map_map]
          apply List.map_congr_left
          intro r hr
          simp only [Function.comp_apply]
          by_cases hc : r.id = k
          · rw [if_pos hc, hdbid, hc]
          · rw [if_neg hc]
        rw [hids_eq]
        exact hnd
      have hold1 : ∀ r ∈ st1.labels, r.id < B → ∀ p, r.parentId = some p → p < B := by
        intro r hr hrB p hp
        rw [hlab1] at hr
        obtain ⟨r0, hr0, rfl⟩ := List.mem_map.mp hr
        by_cases hc : r0.id = k
        · rw [if_pos hc] at hrB hp
          rw [hdbpar] at hp
          exact hold db0 hmem0 (by omega) p hp
        · rw [if_neg hc] at hrB hp
          exact hold r0 hr0 hrB p hp
      have hB1 : B ≤ st1.nextId := by omega
      have hpl1 : ∀ p, (some db).map (fun r => r.id) = some p → p < st1.nextId := by
        intro p hp
        have hp2 : some db.id = some p := hp
        injection hp2 with hp3
        omega
      have F1 : UpdateFacts B owner (some db.id) subs st1 st2 :=
        ih1 B st2 hwf1 hnd1 hold1 hB1 hidsS hpl1 hsub
      have h3 : maybeSkeletonStep (some k) (some db) svg st2 = st2 := rfl
      rw [h3] at hok
      have hm1 := F1.mono
      have hB2 : B ≤ st2.nextId := by omega
      have hpl2 : ∀ p, pl = some p → p < st2.nextId := by
        intro p hp
        have := hpl p hp
        omega
      have F2 : UpdateFacts B owner pl rest st2 st' :=
        ih2 B st' F1.wf F1.nodup F1.oldpar hB2 hidsR hpl2 hok
      have hm2 := F2.mono
      have hskT : st'.skeletons = st.skeletons
          ++ (newSkels st1 st2 ++ newSkels st2 st') := by
        rw [F2.skels_eq, F1.skels_eq, hsk1, List.append_assoc]
      have hNS := newSkels_of_append st st' _ hskT
      obtain ⟨oldsA, newsA, hevA, heqA, hnewsA⟩ := F1.evolve
      obtain ⟨oldsB, newsB, hevB, heqB, hnewsB⟩ := F2.evolve
      have hstab : ∀ rid, st.nextId ≤ rid → rid < st2.nextId →
          childrenOf st'.labels rid = childrenOf st2.labels rid := by
        intro rid h1 h2
        exact stable_of_evolve hevB heqB
          (fun r hr => ⟨(hnewsB r hr).1, (hnewsB r hr).2.1⟩)
          F1.oldpar rid (by omega) h2
          (fun he => absurd (hpl rid he) (by omega))
      have hevBd : OldEvolves B (oldsA ++ newsA) oldsB := by
        rw [← heqA]
        exact hevB
      obtain ⟨a2, hev2, ha2⟩ := oldEvolves_decompose hevBd (by
        intro r hr
        have := (hnewsA r hr).1
        omega)
      refine ⟨by omega, F2.wf, F2.nodup, F2.oldpar, ?_, ?_, ?_⟩
      · refine ⟨a2, newsA ++ newsB,
          oldEvolves_trans (oldEvolves_trans hevHead hevA) hev2, ?_, ?_⟩
        · rw [heqB, ha2, List.append_assoc]
        · intro r hr
          rcases List.mem_append.mp hr with hrA | hrB2
          · obtain ⟨hN, hdisj, hskel⟩ := hnewsA r hrA
            refine ⟨by omega, ?_, ?_⟩
            · rcases hdisj with hp | ⟨q, hq, hqb⟩ | ⟨q, hq, hqb⟩
              · exact Or.inr (Or.inr ⟨db.id, hp, by omega⟩)
              · exact Or.inr (Or.inl ⟨q, hq, by omega⟩)
              · exact Or.inr (Or.inr ⟨q, hq, hqb⟩)
            · intro hty
              obtain ⟨s, hs⟩ := hskel hty
              refine ⟨s, ?_⟩
              rw [hNS]
              exact List.mem_append_left _ hs
          · obtain ⟨hN, hdisj, hskel⟩ := hnewsB r hrB2
            refine ⟨by omega, ?_, ?_⟩
            · rcases hdisj with hp | ⟨q, hq, hqb⟩ | h3d
              · exact Or.inl hp
              · exact Or.inr (Or.inl ⟨q, hq, by omega⟩)
              · exact Or.inr (Or.inr h3d)
            · intro hty
              obtain ⟨s, hs⟩ := hskel hty
              refine ⟨s, ?_⟩
              rw [hNS]
              exact List.mem_append_right _ hs
      · rw [hNS]
        exact hskT
      · intro sk hsk
        rw [hNS] at hsk
        rcases List.mem_append.mp hsk with hskA | hskC
        · obtain ⟨spec, hmem, hsid, hsty, hb1, hb2, hsvg⟩ := F1.skels_spec sk hskA
          refine ⟨spec, ?_, hsid, hsty, by omega, by omega, ?_⟩
          · rw [specNodes]
            exact List.mem_cons_of_mem _ (List.mem_append_left _ hmem)
          · rw [hstab sk.1 (by omega) hb2]
            exact hsvg
        · obtain ⟨spec, hmem, hsid, hsty, hb1, hb2, hsvg⟩ := F2.skels_spec sk hskC
          refine ⟨spec, ?_, hsid, hsty, by omega, hb2, hsvg⟩
          rw [specNodes]
          exact List.mem_cons_of_mem _ (List.mem_append_right _ hmem)

end Labels
end CVAT

namespace CVAT
namespace Labels

/-- C2 (confirmed): for every label created by `create_labels` whose type is
skeleton, a skeleton row rooted at that label is created whose svg equals
the input svg in which, for each DB sublabel of the label (exactly the
input's sublabels, in order), every occurrence of
`data-label-name="<sublabel name>"` has been replaced by
`data-label-id="<sublabel id>"`; and `update_labels` performs the same
substitution and skeleton creation exactly for the labels it creates
(those given without an id), provided the ids the input does mention
reference pre-existing rows. -/
theorem skeleton_svg_substitution :
    (∀ (g : String → List String → String) (owner : Nat) (pl : Option Nat)
        (specs : List LabelSpec) (colors : List String) (st : DbState),
      labelsWF st → (∀ p, pl = some p → p < st.nextId) →
      (∀ r ∈ newRows st (create_labels g owner pl specs colors st),
          r.ltype = some skeletonType →
          ∃ s, (r.id, s) ∈ newSkels st (create_labels g owner pl specs colors st)) ∧
      (∀ sk ∈ newSkels st (create_labels g owner pl specs colors st),
          ∃ spec ∈ specNodes specs, spec.ltype = some skeletonType ∧
          sk.2 = substLabelPlaceholders spec.svg
            ((childrenOf (create_labels g owner pl specs colors st).labels sk.1).map
              (fun ch => (ch.name, ch.id))) ∧
          (childrenOf (create_labels g owner pl specs colors st).labels sk.1).map
              (fun ch => (ch.name, ch.ltype))
            = spec.sublabels.map (fun s => (s.name.getD "", s.ltype))))
    ∧
    (∀ (g : String → List String → String) (owner : Nat)
        (specs : List LabelSpec) (st st' : DbState),
      labelsWF st → (st.labels.map (fun r => r.id)).Nodup →
      (∀ nd ∈ specNodes specs, ∀ j, nd.id = some j → j < st.nextId) →
      update_labels g owner none specs st = .ok st' →
      ∃ olds2 news, OldEvolves st.nextId st.labels olds2 ∧
        st'.labels = olds2 ++ news ∧
        (∀ r ∈ news, st.nextId ≤ r.id) ∧
        (∀ r ∈ news, r.ltype = some skeletonType →
          ∃ s, (r.id, s) ∈ newSkels st st') ∧
        (∀ sk ∈ newSkels st st', ∃ spec ∈ specNodes specs,
          spec.id = none ∧ spec.ltype = some skeletonType ∧
          sk.2 = substLabelPlaceholders spec.svg
            ((childrenOf st'.labels sk.1).map (fun ch => (ch.name, ch.id))))) := by
  constructor
  · intro g owner pl specs colors st hwf hpl
    have F := create_labels_facts g owner pl specs colors st hwf hpl
    refine ⟨F.rows_skel, ?_⟩
    intro sk hsk
    obtain ⟨spec, hmem, hsty, hb1, hb2, hsvg, hnames⟩ := F.skels_spec sk hsk
    exact ⟨spec, hmem, hsty, hsvg, hnames⟩
  · intro g owner specs st st' hwf hnd hids hok
    have F := update_labels_facts g owner none specs st st.nextId st' hwf hnd
      (fun r hr hlt p hp => (hwf r hr).2 p hp) (le_refl _) hids
      (fun p hp => Option.noConfusion hp) hok
    obtain ⟨olds2, news, hev, heq, hnews⟩ := F.evolve
    refine ⟨olds2, news, hev, heq, fun r hr => (hnews r hr).1,
      fun r hr hty => (hnews r hr).2.2 hty, fun sk hsk => ?_⟩
    obtain ⟨spec, hmem, hsid, hsty, hb1, hb2, hsvg⟩ := F.skels_spec sk hsk
    exact ⟨spec, hmem, hsid, hsty, hsvg⟩

end Labels
end CVAT

namespace CVAT
namespace Labels

theorem skeleton_svg_substitution_witness :
    ((∀ r ∈ newRows ⟨0, [], [], [], 0⟩
          (create_labels (fun _ _ => "c") 7 none
            [LabelSpec.mk none (some "parent") (some "skeleton") (some "red") false
              "<svg data-label-name=\x22arm\x22/>" []
              [LabelSpec.mk none (some "arm") (some "points") none false "" [] []]]
            [] ⟨0, [], [], [], 0⟩),
        r.ltype = some skeletonType →
        ∃ s, (r.id, s) ∈ newSkels ⟨0, [], [], [], 0⟩
          (create_labels (fun _ _ => "c") 7 none
            [LabelSpec.mk none (some "parent") (some "skeleton") (some "red") false
              "<svg data-label-name=\x22arm\x22/>" []
              [LabelSpec.mk none (some "arm") (some "points") none false "" [] []]]
            [] ⟨0, [], [], [], 0⟩))
      ∧ (∀ sk ∈ newSkels ⟨0, [], [], [], 0⟩
          (create_labels (fun _ _ => "c") 7 none
            [LabelSpec.mk none (some "parent") (some "skeleton") (some "red") false
              "<svg data-label-name=\x22arm\x22/>" []
              [LabelSpec.mk none (some "arm") (some "points") none false "" [] []]]
            [] ⟨0, [], [], [], 0⟩),
        ∃ spec ∈ specNodes
            [LabelSpec.mk none (some "parent") (some "skeleton") (some "red") false
              "<svg data-label-name=\x22arm\x22/>" []
              [LabelSpec.mk none (some "arm") (some "points") none false "" [] []]],
          spec.ltype = some skeletonType ∧
          sk.2 = substLabelPlaceholders spec.svg
            ((childrenOf (create_labels (fun _ _ => "c") 7 none
                [LabelSpec.mk none (some "parent") (some "skeleton") (some "red") false
                  "<svg data-label-name=\x22arm\x22/>" []
                  [LabelSpec.mk none (some "arm") (some "points") none false "" [] []]]
                [] ⟨0, [], [], [], 0⟩).labels sk.1).map
              (fun ch => (ch.name, ch.id))) ∧
          (childrenOf (create_labels (fun _ _ => "c") 7 none
              [LabelSpec.mk none (some "parent") (some "skeleton") (some "red") false
                "<svg data-label-name=\x22arm\x22/>" []
                [LabelSpec.mk none (some "arm") (some "points") none false "" [] []]]
              [] ⟨0, [], [], [], 0⟩).labels sk.1).map
              (fun ch => (ch.name, ch.ltype))
            = spec.sublabels.map (fun s => (s.name.getD "", s.ltype))))
    ∧ (∃ olds2 news, OldEvolves 0 [] olds2 ∧
        ([(⟨0, 7, "s", some "skeleton", "c", none⟩ : LabelRow)]) = olds2 ++ news ∧
        (∀ r ∈ news, 0 ≤ r.id) ∧
        (∀ r ∈ news, r.ltype = some skeletonType →
          ∃ s, (r.id, s) ∈ newSkels ⟨0, [], [], [], 0⟩
            ⟨1, [⟨0, 7, "s", some "skeleton", "c", none⟩], [(0, "x")], [], 1⟩) ∧
        (∀ sk ∈ newSkels ⟨0, [], [], [], 0⟩
            ⟨1, [⟨0, 7, "s", some "skeleton", "c", none⟩], [(0, "x")], [], 1⟩,
          ∃ spec ∈ specNodes
              [LabelSpec.mk none (some "s") (some "skeleton") none false "x" [] []],
            spec.id = none ∧ spec.ltype = some skeletonType ∧
            sk.2 = substLabelPlaceholders spec.svg
              ((childrenOf (⟨1, [⟨0, 7, "s", some "skeleton", "c", none⟩],
                  [(0, "x")], [], 1⟩ : DbState).labels sk.1).map
                (fun ch => (ch.name, ch.id))))) := by
  constructor
  · exact skeleton_svg_substitution.1 (fun _ _ => "c") 7 none
      [LabelSpec.mk none (some "parent") (some "skeleton") (some "red") false
        "<svg data-label-name=\x22arm\x22/>" []
        [LabelSpec.mk none (some "arm") (some "points") none false "" [] []]]
      [] ⟨0, [], [], [], 0⟩
      (fun r hr => absurd hr (List.not_mem_nil r))
      (fun p hp => Option.noConfusion hp)
  · exact skeleton_svg_substitution.2 (fun _ _ => "c") 7
      [LabelSpec.mk none (some "s") (some "skeleton") none false "x" [] []]
      ⟨0, [], [], [], 0⟩
      ⟨1, [⟨0, 7, "s", some "skeleton", "c", none⟩], [(0, "x")], [], 1⟩
      (fun r hr => absurd hr (List.not_mem_nil r))
      (by simp)
      (by
        intro nd hnd j hj
        simp only [specNodes, List.append_nil, List.mem_singleton] at hnd
        subst hnd
        exact Option.noConfusion hj)
      (by
        simp only [update_labels]
        rw [show update_label (fun _ _ => "c") 7 none
            (LabelSpec.mk none (some "s") (some "skeleton") none false "x" [] [])
            ⟨0, [], [], [], 0⟩
          = Except.ok (some ⟨0, 7, "s", some "skeleton", "c", none⟩,
              ⟨1, [⟨0, 7, "s", some "skeleton", "c", none⟩], [], [], 1⟩) from rfl]
        simp only [update_labels]
        rfl)

end Labels
end CVAT
